import Mathlib

/-!
Verification of the Enzymscreening dashboard logic (src/Greattable.py).

The development shallowly embeds the repository's numeric-normalization
helpers (parse_number_de, as_percent_0_100) and the chart callback
(update_plot) as executable Lean functions.  Python/pandas floats are
modelled as exact fractions (an integer numerator over a natural
denominator, kept unnormalized so that every operation is
kernel-computable), pandas NaN and Python None as explicit missing
values, and pandas DataFrames as a column-name list plus a row list of
cells.  Python exceptions (e.g. KeyError on a missing column) are
modelled with Except.
-/

/-- Exact fraction n / d.  Denominators are positive for every value the
embedded code constructs; the representation is not normalized, so value
comparisons go through qeq / qle below. -/
structure Q where
  n : ℤ
  d : ℕ
deriving DecidableEq, Repr

instance instOfNatQ (k : ℕ) : OfNat Q k where
  ofNat := ⟨k, 1⟩

/-- Fraction addition (cross multiplication, no normalization). -/
def qAdd (a b : Q) : Q := ⟨a.n * b.d + b.n * a.d, a.d * b.d⟩

/-- Fraction subtraction. -/
def qSub (a b : Q) : Q := ⟨a.n * b.d - b.n * a.d, a.d * b.d⟩

/-- Fraction multiplication. -/
def qMul (a b : Q) : Q := ⟨a.n * b.n, a.d * b.d⟩

/-- Fraction negation. -/
def qNeg (a : Q) : Q := ⟨-a.n, a.d⟩

/-- Fraction absolute value (Python abs). -/
def qAbs (a : Q) : Q := ⟨a.n.natAbs, a.d⟩

/-- Division of a fraction by a natural number (used for decimal scaling
and for pivot means, where the divisor is always positive). -/
def qDivNat (a : Q) (k : ℕ) : Q := ⟨a.n, a.d * k⟩

/-- Value equality of fractions (valid comparison for the positive
denominators the code produces). -/
def qeq (a b : Q) : Bool := a.n * (b.d : ℤ) = b.n * (a.d : ℤ)

/-- Value order on fractions. -/
def qle (a b : Q) : Bool := a.n * (b.d : ℤ) ≤ b.n * (a.d : ℤ)

/-- Python min of two numbers: the first argument on ties. -/
def qmin (a b : Q) : Q := if qle a b then a else b

/-- Python max of two numbers: the first argument on ties. -/
def qmax (a b : Q) : Q := if qle b a then a else b

/-- Value equality on optional fractions (missing equals missing). -/
def oqeq : Option Q → Option Q → Bool
  | Option.none, Option.none => true
  | Option.some a, Option.some b => qeq a b
  | _, _ => false

/-- Value handed to parse_number_de by pandas: Python None, a float NaN,
an int/float/np.number carrying a (finite) numeric value, or a string.
Other object types (which the code would stringify) are not used by the
repository's tables and are not modelled. -/
inductive Val where
  | none
  | nan
  | num (q : Q)
  | str (s : String)
deriving DecidableEq, Repr

/-- Python str.isspace for the characters relevant here (ASCII whitespace,
the C1 separator controls, NEL, NBSP and the common Unicode spaces);
str.strip() removes exactly these from both ends. -/
def pyIsSpace (c : Char) : Bool :=
  c = ' ' || c = '\t' || c = '\n' || c = '\r' || c = '\x0b' || c = '\x0c' ||
  c = '\x1c' || c = '\x1d' || c = '\x1e' || c = '\x1f' ||
  c = '\x85' || c = '\xa0' || c = '\u1680' ||
  ('\u2000' ≤ c && c ≤ '\u200a') ||
  c = '\u2028' || c = '\u2029' || c = '\u202f' || c = '\u205f' || c = '\u3000'

/-- Python str.strip(): drop leading and trailing whitespace characters. -/
def pyStrip (cs : List Char) : List Char :=
  ((cs.dropWhile pyIsSpace).reverse.dropWhile pyIsSpace).reverse

/-- Python str.replace(a, b) for single characters, with b a character
(used for "\xa0" → " " and "," → "."). -/
def replAll (a b : Char) (cs : List Char) : List Char :=
  cs.map fun c => if c = a then b else c

/-- Python str.replace(a, "") for a single character a: delete every
occurrence (used for "%", "‰", " " and "."). -/
def removeAllC (a : Char) (cs : List Char) : List Char :=
  cs.filter fun c => !(c = a)

/-- Python str.lower(); Char.toLower performs the ASCII case folding,
which is all the "nan"/"none" token comparison can distinguish. -/
def listToLower (cs : List Char) : List Char :=
  cs.map Char.toLower

/-- Numeric value of a digit string (most significant digit first). -/
def digitsVal (ds : List Char) : ℕ :=
  ds.foldl (fun n c => 10 * n + (c.toNat - 48)) 0

/-- Exponent suffix of the Python float() grammar: an optional sign and a
nonempty digit run ending the string. -/
def expPart (m : Q) (cs : List Char) : Option Q :=
  let p : Bool × List Char :=
    match cs with
    | '+' :: t => (true, t)
    | '-' :: t => (false, t)
    | _ => (true, cs)
  let ds := p.2.takeWhile Char.isDigit
  let rest := p.2.dropWhile Char.isDigit
  if ds.isEmpty || !rest.isEmpty then Option.none
  else Option.some (if p.1 then qMul m ⟨10 ^ digitsVal ds, 1⟩ else qDivNat m (10 ^ digitsVal ds))

/-- Model of Python float(string) on finite decimal literals: surrounding
whitespace is ignored, then an optional sign, digits with an optional "."
and fractional digits, and an optional e/E exponent.  The special tokens
inf/infinity/nan (not representable as a fraction, and treated as missing
by the surrounding code anyway) and digit-group underscores are modelled
as parse failures. -/
def pyFloat? (cs0 : List Char) : Option Q :=
  let cs := pyStrip cs0
  let p : Bool × List Char :=
    match cs with
    | '+' :: t => (false, t)
    | '-' :: t => (true, t)
    | _ => (false, cs)
  let ip := p.2.takeWhile Char.isDigit
  let cs1 := p.2.dropWhile Char.isDigit
  let q : List Char × List Char :=
    match cs1 with
    | '.' :: t => (t.takeWhile Char.isDigit, t.dropWhile Char.isDigit)
    | _ => ([], cs1)
  if ip.isEmpty && q.1.isEmpty then Option.none
  else
    let mag : Q := qAdd ⟨digitsVal ip, 1⟩ (qDivNat ⟨digitsVal q.1, 1⟩ (10 ^ q.1.length))
    let mant : Q := if p.1 then qNeg mag else mag
    match q.2 with
    | [] => Option.some mant
    | 'e' :: t => expPart mant t
    | 'E' :: t => expPart mant t
    | _ => Option.none

/-- Embeds parse_number_de from src/Greattable.py: None and NaN give
missing; numeric values pass through; otherwise the stripped text gives
missing when empty or (case-insensitively) "nan"/"none", and is otherwise
piped through replace("\xa0", " "), removal of "%" and "‰", strip(),
removal of " " and ".", replace(",", ".") and float(). -/
def parse_number_de : Val → Option Q
  | .none => Option.none
  | .nan => Option.none
  | .num q => Option.some q
  | .str s =>
    let s1 := pyStrip s.data
    if s1.isEmpty || listToLower s1 = "nan".data || listToLower s1 = "none".data then
      Option.none
    else
      let s2 := pyStrip (removeAllC '‰' (removeAllC '%' (replAll '\xa0' ' ' s1)))
      pyFloat? (replAll ',' '.' (removeAllC '.' (removeAllC ' ' s2)))

/-- Spec-side rendition of the §4.1 locale parsing contract, following the
spec's wording: missing for null/NaN/empty/"nan"/"none" (checked on the
trimmed text); a numeric value unchanged; otherwise strip (delete)
non-breaking spaces, remove "%" and "‰", strip surrounding whitespace,
remove all interior spaces, remove ".", replace "," with "." and parse
as a float, with missing on parse failure. -/
def parse_number_specModel : Val → Option Q
  | .none => Option.none
  | .nan => Option.none
  | .num q => Option.some q
  | .str s =>
    let s1 := pyStrip s.data
    if s1.isEmpty || listToLower s1 = "nan".data || listToLower s1 = "none".data then
      Option.none
    else
      let s2 := pyStrip (removeAllC '‰' (removeAllC '%' (removeAllC '\xa0' s1)))
      pyFloat? (replAll ',' '.' (removeAllC '.' (removeAllC ' ' s2)))

/-- Embeds as_percent_0_100 from src/Greattable.py: parse, keep missing,
and rescale by 100 exactly when 0.0 <= abs(v) <= 1.0. -/
def as_percent_0_100 (x : Val) : Option Q :=
  match parse_number_de x with
  | Option.none => Option.none
  | Option.some v =>
    if qle 0 (qAbs v) && qle (qAbs v) 1 then Option.some (qMul v 100) else Option.some v

/-- Spec-side rendition of §4.1 percent normalization: parse, keep
missing, multiply by 100 iff the absolute value is at most 1.0. -/
def as_percent_specModel (x : Val) : Option Q :=
  match parse_number_specModel x with
  | Option.none => Option.none
  | Option.some v =>
    if qle (qAbs v) 1 then Option.some (qMul v 100) else Option.some v

example : oqeq (parse_number_de (.str "1.234,56")) (Option.some ⟨123456, 100⟩) = true := by decide
example : parse_number_de (.str "") = Option.none := by decide
example : oqeq (parse_number_de (.str "12%")) (Option.some 12) = true := by decide
example : oqeq (parse_number_de (.str " 1 234,5 ")) (Option.some ⟨24690, 20⟩) = true := by decide
example : oqeq (parse_number_de (.str "\xa07,5‰")) (Option.some ⟨75, 10⟩) = true := by decide
example : parse_number_de (.str "NaN") = Option.none := by decide
example : parse_number_de (.str "abc") = Option.none := by decide
example : oqeq (parse_number_de (.str "1e2")) (Option.some 100) = true := by decide
example : oqeq (parse_number_de (.str "-0,5")) (Option.some ⟨-1, 2⟩) = true := by decide
example : oqeq (as_percent_0_100 (.str "0,5")) (Option.some 50) = true := by decide
example : oqeq (as_percent_0_100 (.str "75")) (Option.some 75) = true := by decide
example : as_percent_0_100 .nan = Option.none := by decide

theorem filter_dropWhile {p q : Char → Bool} (h : ∀ c, p c = false → q c = true) :
    ∀ l : List Char, (l.dropWhile q).filter p = (l.filter p).dropWhile q := by
  intro l
  induction l with
  | nil => rfl
  | cons c t ih =>
    by_cases hq : q c = true
    · by_cases hp : p c = true
      · simp [List.dropWhile_cons, List.filter_cons, hq, hp, ih]
      · simp [List.dropWhile_cons, List.filter_cons, hq,
          Bool.not_eq_true _ ▸ hp, ih]
    · have hp : p c = true := by
        rcases Bool.eq_false_or_eq_true (p c) with h' | h'
        · exact h'
        · exact absurd (h c h') hq
      simp [List.dropWhile_cons, List.filter_cons, hq, hp]

theorem removeSpace_pyStrip (u : List Char) :
    removeAllC ' ' (pyStrip u) = pyStrip (removeAllC ' ' u) := by
  have h : ∀ c : Char, (!(decide (c = ' '))) = false → pyIsSpace c = true := by
    intro c hc
    have hc' : c = ' ' := by simpa using hc
    subst hc'; rfl
  unfold pyStrip removeAllC
  rw [List.filter_reverse, filter_dropWhile h, List.filter_reverse, filter_dropWhile h]

theorem removeSpace_replNbsp (w : List Char) :
    removeAllC ' ' (replAll '\xa0' ' ' w) = removeAllC ' ' (removeAllC '\xa0' w) := by
  induction w with
  | nil => rfl
  | cons c t ih =>
    by_cases hc : c = '\xa0'
    · subst hc
      simpa [replAll, removeAllC, List.filter_cons] using ih
    · by_cases hsp : c = ' '
      · subst hsp
        simpa [replAll, removeAllC, List.filter_cons] using ih
      · simpa [replAll, removeAllC, List.filter_cons, hc, hsp] using ih

theorem removeAll_replAll (a x y : Char) (hx : ¬a = x) (hy : ¬a = y) (l : List Char) :
    removeAllC a (replAll x y l) = replAll x y (removeAllC a l) := by
  induction l with
  | nil => rfl
  | cons c t ih =>
    by_cases hc : c = x
    · subst hc
      simpa [replAll, removeAllC, List.filter_cons, Ne.symm hy, Ne.symm hx] using ih
    · by_cases hca : c = a
      · subst hca
        simpa [replAll, removeAllC, List.filter_cons, hc] using ih
      · simpa [replAll, removeAllC, List.filter_cons, hc, hca] using ih

theorem removeAll_comm (a b : Char) (l : List Char) :
    removeAllC a (removeAllC b l) = removeAllC b (removeAllC a l) := by
  unfold removeAllC
  rw [List.filter_filter, List.filter_filter]
  congr 1
  funext c
  exact Bool.and_comm _ _

theorem pipeline_nbsp (s1 : List Char) :
    removeAllC ' ' (pyStrip (removeAllC '‰' (removeAllC '%' (replAll '\xa0' ' ' s1)))) =
    removeAllC ' ' (pyStrip (removeAllC '‰' (removeAllC '%' (removeAllC '\xa0' s1)))) := by
  rw [removeSpace_pyStrip, removeSpace_pyStrip]
  congr 1
  rw [removeAll_comm ' ' '‰', removeAll_comm ' ' '%', removeSpace_replNbsp,
    removeAll_comm '%' ' ', removeAll_comm '‰' ' ']

theorem parse_number_eq_specModel (v : Val) :
    parse_number_de v = parse_number_specModel v := by
  cases v with
  | none => rfl
  | nan => rfl
  | num q => rfl
  | str s =>
    simp only [parse_number_de, parse_number_specModel]
    split
    · rfl
    · congr 1
      rw [pipeline_nbsp]

theorem qle_zero_qAbs (v : Q) : qle 0 (qAbs v) = true := by
  have h0 : (0 : Q).n = 0 := rfl
  have h1 : (0 : Q).d = 1 := rfl
  simp only [qle, qAbs, h0, h1, decide_eq_true_eq, zero_mul, Nat.cast_one, mul_one]
  positivity

theorem as_percent_eq_specModel (x : Val) :
    as_percent_0_100 x = as_percent_specModel x := by
  unfold as_percent_0_100 as_percent_specModel
  rw [parse_number_eq_specModel]
  cases parse_number_specModel x with
  | none => rfl
  | some v => simp [qle_zero_qAbs]

/-- C1: parse_number_de returns missing for null/NaN/empty/"nan"/"none",
passes numeric values through, and otherwise applies the non-breaking
space / percent / thousands-dot / decimal-comma normalization before
float parsing, giving missing (never an exception) on failure — stated
as agreement with the spec-worded model on every input, together with
the spec's three concrete examples. -/
theorem C1_parse_number_de_matches_spec :
    (∀ v : Val, parse_number_de v = parse_number_specModel v) ∧
    oqeq (parse_number_de (.str "1.234,56")) (Option.some ⟨123456, 100⟩) = true ∧
    parse_number_de (.str "") = Option.none ∧
    oqeq (parse_number_de (.str "12%")) (Option.some 12) = true :=
  ⟨parse_number_eq_specModel, by decide, by decide, by decide⟩

/-- C2: as_percent_0_100 parses, keeps missing, rescales by 100 exactly
when the parsed absolute value is at most 1.0 and passes the value
through otherwise — stated as agreement with the spec-worded model on
every input, together with the spec's three concrete examples. -/
theorem C2_as_percent_0_100_matches_spec :
    (∀ x : Val, as_percent_0_100 x = as_percent_specModel x) ∧
    oqeq (as_percent_0_100 (.str "0,5")) (Option.some 50) = true ∧
    oqeq (as_percent_0_100 (.str "75")) (Option.some 75) = true ∧
    as_percent_0_100 .nan = Option.none :=
  ⟨as_percent_eq_specModel, by decide, by decide, by decide⟩

/-- Cell of a pandas DataFrame: missing (NaN), a numeric value, or a
string.  Arithmetic on the numeric columns treats non-numeric cells as
missing, matching the post-load all-numeric measurement columns. -/
inductive Cell where
  | na
  | num (q : Q)
  | str (s : String)
deriving DecidableEq, Repr

/-- Pandas DataFrame: column names plus rows of cells (row i holds the
cell for column j at position j). -/
structure DF where
  cols : List String
  rows : List (List Cell)
deriving DecidableEq, Repr

/-- Cell of a row at a column position (missing when the row is ragged). -/
def cellAt (i : ℕ) (r : List Cell) : Cell := r.getD i Cell.na

/-- Membership test c in df.columns. -/
def hasCol (df : DF) (c : String) : Bool := df.cols.contains c

/-- Column lookup dff[c]: the cell list of column c, KeyError when absent. -/
def getColE (df : DF) (c : String) : Except String (List Cell) :=
  match df.cols.findIdx? (fun x => x = c) with
  | Option.none => Except.error ("KeyError: " ++ c)
  | Option.some i => Except.ok (df.rows.map (cellAt i))

/-- Row filter dff[dff[c].isin(vs)]: keeps the rows whose string cell in
column c is one of vs; missing and numeric cells never match a string
list.  Callers guard on hasCol, so an absent column leaves df unchanged. -/
def filterIsin (df : DF) (c : String) (vs : List String) : DF :=
  match df.cols.findIdx? (fun x => x = c) with
  | Option.none => df
  | Option.some i =>
    { cols := df.cols,
      rows := df.rows.filter fun r =>
        match cellAt i r with
        | Cell.str s => vs.contains s
        | _ => false }

/-- Row filter dff[dff[c] == v] for a string v; KeyError when the column
is absent. -/
def filterEqE (df : DF) (c : String) (v : String) : Except String DF :=
  match df.cols.findIdx? (fun x => x = c) with
  | Option.none => Except.error ("KeyError: " ++ c)
  | Option.some i =>
    Except.ok
      { cols := df.cols,
        rows := df.rows.filter fun r =>
          match cellAt i r with
          | Cell.str s => s = v
          | _ => false }

/-- Column assignment dff[c] = vals: replaces column c cellwise when it
exists, otherwise appends a new column on the right. -/
def setCol (df : DF) (c : String) (vals : List Cell) : DF :=
  match df.cols.findIdx? (fun x => x = c) with
  | Option.some i =>
    { cols := df.cols, rows := (df.rows.zip vals).map fun p => p.1.set i p.2 }
  | Option.none =>
    { cols := df.cols ++ [c], rows := (df.rows.zip vals).map fun p => p.1 ++ [p.2] }

/-- Elementwise subtraction of two numeric cells; missing propagates. -/
def cellSub : Cell → Cell → Cell
  | Cell.num a, Cell.num b => Cell.num (qSub a b)
  | _, _ => Cell.na

/-- Elementwise absolute value of a numeric cell; missing propagates. -/
def cellAbs : Cell → Cell
  | Cell.num a => Cell.num (qAbs a)
  | _ => Cell.na

/-- Numeric content of a cell, if any. -/
def cellNum? : Cell → Option Q
  | Cell.num a => Option.some a
  | _ => Option.none

/-- Values of (dff["pH (nach)"] - dff["pH (vor)"]).abs(); KeyError when
either column is absent ("pH (nach)" is looked up first, as in the
source). -/
def absDeltaVals (df : DF) : Except String (List Cell) := do
  let nach ← getColE df "pH (nach)"
  let vor ← getColE df "pH (vor)"
  Except.ok ((nach.zip vor).map fun p => cellAbs (cellSub p.1 p.2))

/-- Chart trace: stacked bar, secondary-axis scatter, or heatmap (with
its subplot row for the vertically stacked pair). -/
inductive Trace where
  | bar (x y : List Cell) (name : String)
  | scatter (x y : List Cell) (name : String) (secondary : Bool)
  | heat (z : List (List Cell)) (x : List Cell) (y : List String) (row : ℕ)
deriving DecidableEq, Repr

/-- Chart specification: the claim-relevant parts of the returned plotly
figure (title, trace list, textual annotations, shared color-scale
range). -/
structure Fig where
  title : String
  traces : List Trace
  annots : List String
  colorRange : Option (Q × Q)
deriving DecidableEq, Repr

deriving instance DecidableEq for Except

/-- go.Figure(layout=dict(template="plotly_white", title="Bitte Daten
auswählen")): the placeholder figure built at the top of update_plot. -/
def figDefault : Fig :=
  { title := "Bitte Daten auswählen", traces := [], annots := [], colorRange := Option.none }

/-- traces_to_add of the Carbohydratasen branch (line 172): option key to
(column, display name) series descriptors; "ph" expands to two series. -/
def carbTracesToAdd (opt : String) : Option (List (String × String)) :=
  if opt = "loes" then Option.some [("Löslichkeit [%]", "Proteinlöslichkeit [%]")]
  else if opt = "glc" then Option.some [("cglc [μM]", "Reduzierende Zucker [µM]")]
  else if opt = "deltaph" then Option.some [("abs(ΔpH)", "abs(ΔpH)")]
  else if opt = "ph" then Option.some [("pH (vor)", "pH (vor)"), ("pH (nach)", "pH (nach)")]
  else Option.none

/-- traces_to_add of the Proteasen distribution branch (line 194). -/
def protTracesToAdd (opt : String) : Option (List (String × String)) :=
  if opt = "loes" then Option.some [("Löslichkeit [%]", "Proteinlöslichkeit [%]")]
  else if opt = "dh" then Option.some [("DH [%]", "Hydrolysegrad [%]")]
  else if opt = "deltaph" then Option.some [("abs(ΔpH)", "abs(ΔpH)")]
  else if opt = "ph" then Option.some [("pH (vor)", "pH (vor)"), ("pH (nach)", "pH (nach)")]
  else Option.none

/-- Series of one option entry: each series reads dff["Enzym"] and
dff[col] (KeyError when the column is absent). -/
def seriesTraces (df : DF) : List (String × String) → Except String (List Trace)
  | [] => Except.ok []
  | p :: ps => do
    let ex ← getColE df "Enzym"
    let ys ← getColE df p.1
    let rest ← seriesTraces df ps
    Except.ok (Trace.scatter ex ys p.2 true :: rest)

/-- Option loop of the distribution views (lines 176-180 / 198-202): the
user's option list is iterated in its own order; an unknown option key
is a KeyError on the traces_to_add dict. -/
def optTraces (df : DF) (tta : String → Option (List (String × String))) :
    List String → Except String (List Trace)
  | [] => Except.ok []
  | opt :: rest => do
    let pairs ← match tta opt with
      | Option.some ps => Except.ok ps
      | Option.none => Except.error ("KeyError: " ++ opt)
    let ts ← seriesTraces df pairs
    let more ← optTraces df tta rest
    Except.ok (ts ++ more)

/-- Figure body of the distribution views, after the abs(ΔpH) column
assignment: two stacked bar series on the primary axis, then the
option-driven secondary-axis series in option-list order. -/
def distFigCore (dff : DF) (tta : String → Option (List (String × String)))
    (opts : List String) (title : String) : Except String Fig := do
  let ex ← getColE dff "Enzym"
  let yU ← getColE dff "TS Anteil ÜS [%]"
  let yS ← getColE dff "TS Anteil Sedi [%]"
  let extra ← optTraces dff tta opts
  Except.ok
    { title := title,
      traces := Trace.bar ex yU "TS Überstand [%]" ::
        Trace.bar ex yS "TS Sediment [%]" :: extra,
      annots := [], colorRange := Option.none }

/-- Records of dff.melt(id_vars="Enzym", value_vars=mm): one (Enzym
value, fraction name, measurement cell) triple per fraction per row,
fraction-major as pandas melt stacks the value columns; KeyError when a
referenced column is absent. -/
def colPairs (df : DF) : List String → Except String (List (String × ℕ))
  | [] => Except.ok []
  | f :: fs =>
    match df.cols.findIdx? (fun x => x = f) with
    | Option.some i => do
      let rest ← colPairs df fs
      Except.ok ((f, i) :: rest)
    | Option.none => Except.error ("KeyError: " ++ f)

/-- Continuation of melt: the stacked records over the resolved value
columns. -/
def meltRecords (df : DF) (mm : List String) : Except String (List (Cell × String × Cell)) := do
  let iE ← match df.cols.findIdx? (fun x => x = "Enzym") with
    | Option.some i => Except.ok i
    | Option.none => Except.error "KeyError: Enzym"
  let pairs ← colPairs df mm
  Except.ok (pairs.flatMap fun p => df.rows.map fun r => (cellAt iE r, p.1, cellAt p.2 r))

/-- Mean of a value list; missing when there is nothing to average
(pandas mean with skipna). -/
def meanQ : List Q → Cell
  | [] => Cell.na
  | v :: rest => Cell.num (qDivNat (rest.foldl qAdd v) (rest.length + 1))

/-- Numeric observations of the melt records for one (fraction, enzyme)
group. -/
def recVals (recs : List (Cell × String × Cell)) (f : String) (e : Cell) : List Q :=
  recs.filterMap fun r =>
    if r.1 = e && r.2.1 = f then cellNum? r.2.2 else Option.none

/-- Aggregated pivot cell: the mean of the group's numeric observations. -/
def pivotCell (recs : List (Cell × String × Cell)) (f : String) (e : Cell) : Cell :=
  meanQ (recVals recs f e)

/-- Insertion step of the sort used for pivot index/column ordering. -/
def insertLe {α : Type} (le : α → α → Bool) (a : α) : List α → List α
  | [] => [a]
  | b :: t => if le a b then a :: b :: t else b :: insertLe le a t

/-- Insertion sort (pandas pivot_table sorts index and columns). -/
def sortLe {α : Type} (le : α → α → Bool) (l : List α) : List α :=
  l.foldr (insertLe le) []

/-- Code-point lexicographic order on character lists (the order pandas
sorts string labels by). -/
def charsLe : List Char → List Char → Bool
  | [], _ => true
  | _ :: _, [] => false
  | a :: as, b :: bs => if a < b then true else if b < a then false else charsLe as bs

/-- Order on the pivot's fraction index. -/
def strLe (a b : String) : Bool := charsLe a.data b.data

/-- Order on cells used to sort the pivot's Enzym columns (the table's
enzyme keys are strings; missing keys are excluded by grouping before
sorting). -/
def cellLe (a b : Cell) : Bool :=
  match a, b with
  | Cell.na, _ => true
  | _, Cell.na => false
  | Cell.num p, Cell.num q => qle p q
  | Cell.num _, Cell.str _ => true
  | Cell.str _, Cell.num _ => false
  | Cell.str s, Cell.str t => strLe s t

/-- Pivot table: sorted fraction index, sorted enzyme columns, and the
cell matrix (z.get i |>.get j is the cell for fraction i, enzyme j). -/
structure Pivot where
  fracs : List String
  enzs : List Cell
  z : List (List Cell)
deriving DecidableEq, Repr

/-- Embeds melt(...).pivot_table(index="MM-Fraktion", columns="Enzym",
values="Anteil [%]", aggfunc="mean"): group keys exclude missing Enzym
values, each cell is the mean of its group's numeric observations, index
and columns are sorted, and (pandas dropna) fractions and enzymes
without any numeric observation are dropped. -/
def mkPivot (df : DF) (mm : List String) : Except String Pivot := do
  let recs ← meltRecords df mm
  let enzKeys := sortLe cellLe (((recs.map fun r => r.1).dedup).filter fun e => !(e = Cell.na))
  let fracKeys := sortLe strLe (recs.map fun r => r.2.1).dedup
  let keepF := fracKeys.filter fun f => enzKeys.any fun e => !(pivotCell recs f e = Cell.na)
  let keepE := enzKeys.filter fun e => fracKeys.any fun f => !(pivotCell recs f e = Cell.na)
  Except.ok
    { fracs := keepF, enzs := keepE,
      z := keepF.map fun f => keepE.map fun e => pivotCell recs f e }

/-- DataFrame.empty of a pivot result (no index rows or no columns). -/
def pivotEmpty (p : Pivot) : Bool := p.fracs.isEmpty || p.enzs.isEmpty

/-- Numeric entries of a z matrix (pandas min/max skip missing cells). -/
def matNums (z : List (List Cell)) : List Q :=
  (z.map fun r => r.filterMap cellNum?).flatten

/-- Python min over a value list (first minimal representative); the
default 0 is never consulted by the embedded code. -/
def listMinQ : List Q → Q
  | [] => 0
  | v :: vs => vs.foldl qmin v

/-- Python max over a value list. -/
def listMaxQ : List Q → Q
  | [] => 100
  | v :: vs => vs.foldl qmax v

/-- Proteasen heatmap view (lines 209-257): more than two materials give
the "too many materials" placeholder; exactly two materials give two
stacked heatmaps over per-material pivots sharing one color range
(min/max over both pivots when both are nonempty, otherwise the 0/100
defaults); zero or one material gives a single px.imshow heatmap; in
both drawing paths, selected MM fractions absent from the table are
dropped first and an empty remainder gives the "please select MM
fractions" placeholder. -/
def heatmapBranch (dff : DF) (mats mm_selected : List String) : Except String Fig :=
  let num_mats := mats.length
  if num_mats > 2 then
    Except.ok
      { title := "Слишком много материалов для сравнения", traces := [],
        annots := ["Пожалуйста, выберите не более двух материалов для тепловой карты."],
        colorRange := Option.none }
  else if num_mats = 2 then
    let mat1 := mats.getD 0 ""
    let mat2 := mats.getD 1 ""
    let subT := ["Материал: " ++ mat1, "Материал: " ++ mat2]
    let mm_present := mm_selected.filter fun m => hasCol dff m
    if mm_present.isEmpty then
      Except.ok
        { title := "Proteasen — Пожалуйста, выберите MM-фракции", traces := [],
          annots := subT, colorRange := Option.none }
    else do
      let dff1 ← filterEqE dff "Material" mat1
      let pivot1 ← mkPivot dff1 mm_present
      let dff2 ← filterEqE dff "Material" mat2
      let pivot2 ← mkPivot dff2 mm_present
      let zmin := if !pivotEmpty pivot1 && !pivotEmpty pivot2
        then qmin (listMinQ (matNums pivot1.z)) (listMinQ (matNums pivot2.z)) else 0
      let zmax := if !pivotEmpty pivot1 && !pivotEmpty pivot2
        then qmax (listMaxQ (matNums pivot1.z)) (listMaxQ (matNums pivot2.z)) else 100
      Except.ok
        { title := "Proteasen — Сравнение MM-фракций",
          traces := [Trace.heat pivot1.z pivot1.enzs pivot1.fracs 1,
                     Trace.heat pivot2.z pivot2.enzs pivot2.fracs 2],
          annots := subT, colorRange := Option.some (zmin, zmax) }
  else
    let mm_present := mm_selected.filter fun m => hasCol dff m
    if mm_present.isEmpty then
      Except.ok
        { title := "Proteasen — Пожалуйста, выберите MM-фракции", traces := [],
          annots := [], colorRange := Option.none }
    else do
      let title := if num_mats = 1
        then "Proteasen — Heatmap MM-фракций (" ++ mats.getD 0 "" ++ ")"
        else "Proteasen — Heatmap MM-фракций (среднее по всем)"
      let pivot ← mkPivot dff mm_present
      Except.ok
        { title := title,
          traces := [Trace.heat pivot.z pivot.enzs pivot.fracs 1],
          annots := [], colorRange := Option.none }

/-- Display key of a Material group in the Filme bar chart. -/
def cellStr : Cell → String
  | Cell.str s => s
  | Cell.num q => toString q.n ++ "/" ++ toString q.d
  | Cell.na => ""

/-- Filme branch (lines 259-265), px.bar(x="Versuchsnr.", y="Summe",
color="Material", hover_data=[six quality columns]): one bar trace per
distinct non-missing Material value in order of first appearance; a
referenced column that is absent raises.  Hover data columns are looked
up but their per-point attachment is not modelled further. -/
def filmeFig (dff : DF) : Except String Fig := do
  let xs ← getColE dff "Versuchsnr."
  let ys ← getColE dff "Summe"
  let ms ← getColE dff "Material"
  let _ ← getColE dff "Homogenität"
  let _ ← getColE dff "Stabilität"
  let _ ← getColE dff "Adhäsion Schale"
  let _ ← getColE dff "Adhäsion Oberfläche"
  let _ ← getColE dff "Kohäsion"
  let _ ← getColE dff "Geruch"
  let groups := (ms.filter fun c => !(c = Cell.na)).dedup
  Except.ok
    { title := "Filme — Gesamtbewertung",
      traces := groups.map fun g =>
        Trace.bar
          ((xs.zip ms).filterMap fun p => if p.2 = g then Option.some p.1 else Option.none)
          ((ys.zip ms).filterMap fun p => if p.2 = g then Option.some p.1 else Option.none)
          (cellStr g),
      annots := [], colorRange := Option.none }

/-- Module-level state: the three canonical tables carb, prot, filme
built once at startup. -/
structure St where
  carb : DF
  prot : DF
  filme : DF
deriving DecidableEq, Repr

/-- Python reference to a DataFrame object: one of the three canonical
module-level tables, or a frame freshly allocated by .copy() or by
boolean-mask filtering. -/
inductive Ref where
  | rcarb
  | rprot
  | rfilme
  | rlocal (d : DF)
deriving DecidableEq, Repr

/-- Dereference: the frame a reference currently denotes. -/
def readRef (st : St) : Ref → DF
  | Ref.rcarb => st.carb
  | Ref.rprot => st.prot
  | Ref.rfilme => st.filme
  | Ref.rlocal d => d

/-- In-place update of the object a reference denotes (dff[col] = ...):
mutating a canonical table changes the module state, mutating a locally
allocated frame does not. -/
def writeRef (st : St) (r : Ref) (d : DF) : St × Ref :=
  match r with
  | Ref.rcarb => ({ st with carb := d }, Ref.rcarb)
  | Ref.rprot => ({ st with prot := d }, Ref.rprot)
  | Ref.rfilme => ({ st with filme := d }, Ref.rfilme)
  | Ref.rlocal _ => (st, Ref.rlocal d)

/-- df_map.get(dataset, carb) (line 159-160): the canonical table for
the dataset name, the carb table for unknown names. -/
def baseRef (dataset : String) : Ref :=
  if dataset = "carb" then Ref.rcarb
  else if dataset = "prot" then Ref.rprot
  else if dataset = "filme" then Ref.rfilme
  else Ref.rcarb

/-- Lines 160-163: dff = df_map.get(dataset, carb).copy(), then the
Material and Enzym isin-filters, each applied only when the column
exists and the selection list is non-empty; .copy() and each filter
allocate a fresh frame. -/
def filteredRef (st : St) (dataset : String) (mats enz : List String) : Ref :=
  let r0 : Ref := Ref.rlocal (readRef st (baseRef dataset))
  let r1 : Ref :=
    if hasCol (readRef st r0) "Material" && !mats.isEmpty
    then Ref.rlocal (filterIsin (readRef st r0) "Material" mats) else r0
  if hasCol (readRef st r1) "Enzym" && !enz.isEmpty
  then Ref.rlocal (filterIsin (readRef st r1) "Enzym" enz) else r1

/-- The filtered frame a render works on. -/
def filteredDF (st : St) (dataset : String) (mats enz : List String) : DF :=
  readRef st (filteredRef st dataset mats enz)

/-- Embeds the main callback update_plot (src/Greattable.py lines
157-267) over an explicit store of the three canonical tables: selects
and copies the table, applies the Material/Enzym filters, returns the
default placeholder on an empty remainder, and dispatches to the
dataset- and view-specific figure builders; the result pairs the
produced figure (or the raised Python exception) with the table store
as left behind by the call. -/
def update_plot (st : St) (dataset : String) (mats enz carb_opts prot_opts : List String)
    (prot_view : String) (mm_selected : List String) : Except String Fig × St :=
  let dffRef := filteredRef st dataset mats enz
  if (readRef st dffRef).rows.isEmpty then (Except.ok figDefault, st)
  else if dataset = "carb" then
    match absDeltaVals (readRef st dffRef) with
    | Except.error e => (Except.error e, st)
    | Except.ok vals =>
      let w := writeRef st dffRef (setCol (readRef st dffRef) "abs(ΔpH)" vals)
      (distFigCore (readRef w.1 w.2) carbTracesToAdd carb_opts
        "Carbohydratasen — TS-Verteilung & Zusatzdaten", w.1)
  else if dataset = "prot" then
    if prot_view = "distribution" then
      match absDeltaVals (readRef st dffRef) with
      | Except.error e => (Except.error e, st)
      | Except.ok vals =>
        let w := writeRef st dffRef (setCol (readRef st dffRef) "abs(ΔpH)" vals)
        (distFigCore (readRef w.1 w.2) protTracesToAdd prot_opts
          "Proteasen — TS-Verteilung & Zusatzdaten", w.1)
    else if prot_view = "heatmap" then
      (heatmapBranch (readRef st dffRef) mats mm_selected, st)
    else (Except.ok figDefault, st)
  else if dataset = "filme" then (filmeFig (readRef st dffRef), st)
  else (Except.ok figDefault, st)

theorem filteredRef_isLocal (st : St) (dataset : String) (mats enz : List String) :
    ∃ d, filteredRef st dataset mats enz = Ref.rlocal d := by
  simp only [filteredRef]
  split <;> first
    | exact ⟨_, rfl⟩
    | (split <;> exact ⟨_, rfl⟩)

theorem filteredDF_eq_of_isLocal (st : St) (dataset : String) (mats enz : List String) (d : DF)
    (h : filteredRef st dataset mats enz = Ref.rlocal d) :
    filteredDF st dataset mats enz = d := by
  unfold filteredDF
  rw [h]
  rfl

/-- C7: the three canonical tables are unchanged by every render call:
the callback works on the .copy() of the selected table (and on the
fresh frames produced by filtering), so the in-place column assignment
of the distribution views never touches module state. -/
theorem C7_canonical_tables_unchanged (st : St) (dataset : String)
    (mats enz carb_opts prot_opts : List String) (prot_view : String)
    (mm_selected : List String) :
    (update_plot st dataset mats enz carb_opts prot_opts prot_view mm_selected).2 = st := by
  obtain ⟨d, hd⟩ := filteredRef_isLocal st dataset mats enz
  simp only [update_plot, hd, readRef, writeRef]
  split
  · rfl
  · split
    · split
      · rfl
      · rfl
    · split
      · split
        · split
          · rfl
          · rfl
        · split
          · rfl
          · rfl
      · split
        · rfl
        · rfl

theorem isEmpty_false_of_ne_nil {l : List (List Cell)} (h : l ≠ []) : l.isEmpty = false := by
  cases l with
  | nil => exact absurd rfl h
  | cons a t => rfl

/-- C6: when the filtered table is empty, update_plot returns the
"Bitte Daten auswählen" placeholder untouched — no traces, no error, no
dataset-specific computation, and the module state unchanged — whatever
the dataset, view, and option selections are. -/
theorem C6_empty_filter_placeholder (st : St) (dataset : String)
    (mats enz carb_opts prot_opts : List String) (prot_view : String)
    (mm_selected : List String)
    (h : (filteredDF st dataset mats enz).rows = []) :
    update_plot st dataset mats enz carb_opts prot_opts prot_view mm_selected =
      (Except.ok figDefault, st) := by
  have hE : (readRef st (filteredRef st dataset mats enz)).rows.isEmpty = true := by
    rw [show readRef st (filteredRef st dataset mats enz) = filteredDF st dataset mats enz
      from rfl, h]
    rfl
  simp only [update_plot, hE, if_true]

/-- C8 (amended): a dataset name outside carb/prot/filme falls back to
the carb table only for the filter and emptiness bookkeeping; the render
then always returns the untouched "Bitte Daten auswählen" default
figure — not the fallback dataset's chart, and no error. -/
theorem C8_unknown_dataset_default_fig (st : St) (dataset : String)
    (mats enz carb_opts prot_opts : List String) (prot_view : String)
    (mm_selected : List String)
    (h1 : dataset ≠ "carb") (h2 : dataset ≠ "prot") (h3 : dataset ≠ "filme") :
    update_plot st dataset mats enz carb_opts prot_opts prot_view mm_selected =
      (Except.ok figDefault, st) := by
  simp only [update_plot, h1, h2, h3, if_false]
  split <;> rfl

theorem update_plot_heatmap_eq (st : St) (mats enz co po mm : List String)
    (hne : (filteredDF st "prot" mats enz).rows ≠ []) :
    update_plot st "prot" mats enz co po "heatmap" mm =
      (heatmapBranch (filteredDF st "prot" mats enz) mats mm, st) := by
  have hE : (readRef st (filteredRef st "prot" mats enz)).rows.isEmpty = false :=
    isEmpty_false_of_ne_nil hne
  simp only [update_plot, hE, Bool.false_eq_true, if_false]
  norm_num
  rfl

/-- C5 (amended): with at most two selected materials, a nonempty
filtered table and no selected MM-fraction column present, the Proteasen
heatmap view returns the "please select MM fractions" placeholder with
no traces.  (With more than two materials the "too many materials"
placeholder takes precedence.) -/
theorem C5_mm_placeholder_upto_two_materials (st : St) (mats enz co po mm : List String)
    (hne : (filteredDF st "prot" mats enz).rows ≠ [])
    (hlen : mats.length ≤ 2)
    (hmm : mm.filter (fun m => hasCol (filteredDF st "prot" mats enz) m) = []) :
    ∃ f, (update_plot st "prot" mats enz co po "heatmap" mm).1 = Except.ok f ∧
      f.title = "Proteasen — Пожалуйста, выберите MM-фракции" ∧ f.traces = [] := by
  rw [update_plot_heatmap_eq st mats enz co po mm hne]
  simp only [heatmapBranch]
  have hgt : ¬ (mats.length > 2) := by omega
  rw [if_neg (by simpa using hgt)]
  by_cases h2 : mats.length = 2
  · rw [if_pos (by simpa using h2)]
    simp only [hmm, List.isEmpty_nil, if_true]
    exact ⟨_, rfl, rfl, rfl⟩
  · rw [if_neg (by simpa using h2)]
    simp only [hmm, List.isEmpty_nil, if_true]
    exact ⟨_, rfl, rfl, rfl⟩

/-- Example Carbohydratasen table (post-load shape: canonical column
names, numeric measurement cells). -/
def dfCarbEx : DF :=
  { cols := ["Material", "Enzym", "TS Anteil ÜS [%]", "TS Anteil Sedi [%]",
             "Löslichkeit [%]", "cglc [μM]", "pH (vor)", "pH (nach)"],
    rows := [[Cell.str "A", Cell.str "E1", Cell.num 60, Cell.num 40,
              Cell.num 30, Cell.num 5, Cell.num 7, Cell.num 6]] }

/-- Example Proteasen table with two MM-fraction columns and materials
A and B. -/
def dfProtEx : DF :=
  { cols := ["Material", "Enzym", "TS Anteil ÜS [%]", "TS Anteil Sedi [%]",
             "Löslichkeit [%]", "DH [%]", "pH (vor)", "pH (nach)", "MM1", "MM2"],
    rows := [[Cell.str "A", Cell.str "E1", Cell.num 50, Cell.num 50, Cell.num 20,
              Cell.num 10, Cell.num 7, Cell.num 6, Cell.num 40, Cell.num 60],
             [Cell.str "A", Cell.str "E1", Cell.num 50, Cell.num 50, Cell.num 20,
              Cell.num 10, Cell.num 7, Cell.num 6, Cell.num 50, Cell.na],
             [Cell.str "B", Cell.str "E2", Cell.num 50, Cell.num 50, Cell.num 20,
              Cell.num 10, Cell.num 7, Cell.num 6, Cell.num 45, Cell.num 55]] }

/-- Example Filme table. -/
def dfFilmeEx : DF :=
  { cols := ["Material", "Versuchsnr.", "Summe", "Homogenität", "Stabilität",
             "Adhäsion Schale", "Adhäsion Oberfläche", "Kohäsion", "Geruch"],
    rows := [[Cell.str "A", Cell.str "V1", Cell.num 12, Cell.num 2, Cell.num 2,
              Cell.num 2, Cell.num 2, Cell.num 2, Cell.num 2]] }

/-- Example module state built from the three tables above. -/
def stEx : St := ⟨dfCarbEx, dfProtEx, dfFilmeEx⟩

/-- C6 witness: filtering the carb table by a material that does not
occur empties it, and the render returns the untouched placeholder. -/
theorem C6_empty_filter_placeholder_witness :
    (filteredDF stEx "carb" ["ZZZ"] []).rows = [] ∧
    update_plot stEx "carb" ["ZZZ"] [] ["loes"] [] "distribution" [] =
      (Except.ok figDefault, stEx) :=
  ⟨by decide,
   C6_empty_filter_placeholder stEx "carb" ["ZZZ"] [] ["loes"] [] "distribution" [] (by decide)⟩

/-- C8 witness: an unknown dataset name yields the default placeholder
and leaves the state unchanged. -/
theorem C8_unknown_dataset_default_fig_witness :
    update_plot stEx "unknown" [] [] ["loes"] [] "distribution" [] =
      (Except.ok figDefault, stEx) :=
  C8_unknown_dataset_default_fig stEx "unknown" [] [] ["loes"] [] "distribution" []
    (by decide) (by decide) (by decide)

/-- C8 counterexample: with identical inputs on a nonempty carb table,
the unknown-dataset render returns the default placeholder while the
carb render returns the Carbohydratasen chart, so an unknown dataset
does not behave as if the fallback dataset had been selected. -/
theorem C8_unknown_dataset_counterexample :
    (update_plot stEx "unknown" [] [] ["loes"] [] "distribution" []).1 =
      Except.ok figDefault ∧
    (update_plot stEx "carb" [] [] ["loes"] [] "distribution" []).1 ≠
      Except.ok figDefault ∧
    (update_plot stEx "unknown" [] [] ["loes"] [] "distribution" []).1 ≠
      (update_plot stEx "carb" [] [] ["loes"] [] "distribution" []).1 :=
  ⟨by decide, by decide, by decide⟩

/-- The example Proteasen placeholder produced for three materials: the
"too many materials" figure, not the "please select MM fractions" one. -/
theorem C5_too_many_materials_counterexample :
    (update_plot stEx "prot" ["A", "B", "C"] [] [] [] "heatmap" []).1 =
      Except.ok
        { title := "Слишком много материалов для сравнения", traces := [],
          annots := ["Пожалуйста, выберите не более двух материалов для тепловой карты."],
          colorRange := Option.none } ∧
    "Слишком много материалов для сравнения" ≠
      "Proteasen — Пожалуйста, выберите MM-фракции" :=
  ⟨by decide, by decide⟩

/-- C5 witness for the amended statement: two materials, no MM fraction
selected, nonempty filtered table. -/
theorem C5_mm_placeholder_upto_two_materials_witness :
    ∃ f, (update_plot stEx "prot" ["A", "B"] [] [] [] "heatmap" []).1 = Except.ok f ∧
      f.title = "Proteasen — Пожалуйста, выберите MM-фракции" ∧ f.traces = [] :=
  C5_mm_placeholder_upto_two_materials stEx ["A", "B"] [] [] [] []
    (by decide) (by decide) (by decide)

theorem update_plot_carb_eq (st : St) (mats enz co po : List String) (pv : String)
    (mm : List String) (hne : (filteredDF st "carb" mats enz).rows ≠ []) :
    update_plot st "carb" mats enz co po pv mm =
      (match absDeltaVals (filteredDF st "carb" mats enz) with
       | Except.error e => (Except.error e, st)
       | Except.ok vals =>
         (distFigCore (setCol (filteredDF st "carb" mats enz) "abs(ΔpH)" vals)
            carbTracesToAdd co "Carbohydratasen — TS-Verteilung & Zusatzdaten", st)) := by
  obtain ⟨d, hd⟩ := filteredRef_isLocal st "carb" mats enz
  have hdf : filteredDF st "carb" mats enz = d := filteredDF_eq_of_isLocal _ _ _ _ _ hd
  have hE : (readRef st (filteredRef st "carb" mats enz)).rows.isEmpty = false :=
    isEmpty_false_of_ne_nil hne
  have hdne : d.rows ≠ [] := by rw [← hdf]; exact hne
  simp only [update_plot, hd, hE, readRef, writeRef, Bool.false_eq_true, if_false, hdf]
  norm_num [hdne]

theorem update_plot_protdist_eq (st : St) (mats enz co po : List String)
    (mm : List String) (hne : (filteredDF st "prot" mats enz).rows ≠ []) :
    update_plot st "prot" mats enz co po "distribution" mm =
      (match absDeltaVals (filteredDF st "prot" mats enz) with
       | Except.error e => (Except.error e, st)
       | Except.ok vals =>
         (distFigCore (setCol (filteredDF st "prot" mats enz) "abs(ΔpH)" vals)
            protTracesToAdd po "Proteasen — TS-Verteilung & Zusatzdaten", st)) := by
  obtain ⟨d, hd⟩ := filteredRef_isLocal st "prot" mats enz
  have hdf : filteredDF st "prot" mats enz = d := filteredDF_eq_of_isLocal _ _ _ _ _ hd
  have hE : (readRef st (filteredRef st "prot" mats enz)).rows.isEmpty = false :=
    isEmpty_false_of_ne_nil hne
  have hdne : d.rows ≠ [] := by rw [← hdf]; exact hne
  simp only [update_plot, hd, hE, readRef, writeRef, Bool.false_eq_true, if_false, hdf]
  norm_num [hdne]
  intro hcon
  exact absurd hcon (by decide)

/-- Display name of a trace (heatmaps carry no legend name). -/
def traceName : Trace → String
  | Trace.bar _ _ nm => nm
  | Trace.scatter _ _ nm _ => nm
  | Trace.heat _ _ _ _ => ""

/-- Canonical display names an enabled Carbohydratasen option
contributes (the "ph" option contributes two series). -/
def carbOptNames (opt : String) : List String :=
  if opt = "loes" then ["Proteinlöslichkeit [%]"]
  else if opt = "glc" then ["Reduzierende Zucker [µM]"]
  else if opt = "deltaph" then ["abs(ΔpH)"]
  else if opt = "ph" then ["pH (vor)", "pH (nach)"]
  else []

/-- Canonical display names an enabled Proteasen distribution option
contributes. -/
def protOptNames (opt : String) : List String :=
  if opt = "loes" then ["Proteinlöslichkeit [%]"]
  else if opt = "dh" then ["Hydrolysegrad [%]"]
  else if opt = "deltaph" then ["abs(ΔpH)"]
  else if opt = "ph" then ["pH (vor)", "pH (nach)"]
  else []

theorem carbTracesToAdd_names (o : String) (ps : List (String × String))
    (h : carbTracesToAdd o = Option.some ps) : ps.map Prod.snd = carbOptNames o := by
  unfold carbTracesToAdd at h
  repeat' split at h
  all_goals try cases h
  all_goals simp_all [carbOptNames]

theorem protTracesToAdd_names (o : String) (ps : List (String × String))
    (h : protTracesToAdd o = Option.some ps) : ps.map Prod.snd = protOptNames o := by
  unfold protTracesToAdd at h
  repeat' split at h
  all_goals try cases h
  all_goals simp_all [protOptNames]

theorem seriesTraces_names (df : DF) :
    ∀ (ps : List (String × String)) (ts : List Trace),
      seriesTraces df ps = Except.ok ts → ts.map traceName = ps.map Prod.snd := by
  intro ps
  induction ps with
  | nil =>
    intro ts h
    injection h with h'
    subst h'
    rfl
  | cons p ps ih =>
    intro ts h
    simp only [seriesTraces, bind, Except.bind] at h
    cases h1 : getColE df "Enzym" with
    | error e => rw [h1] at h; cases h
    | ok ex =>
      rw [h1] at h
      cases h2 : getColE df p.1 with
      | error e => rw [h2] at h; cases h
      | ok ys =>
        rw [h2] at h
        cases h3 : seriesTraces df ps with
        | error e => rw [h3] at h; cases h
        | ok rest =>
          rw [h3] at h
          injection h with h'
          subst h'
          simp [traceName, ih rest h3]

theorem optTraces_names (df : DF) (tta : String → Option (List (String × String)))
    (sn : String → List String)
    (hsn : ∀ o ps, tta o = Option.some ps → ps.map Prod.snd = sn o) :
    ∀ (opts : List String) (ts : List Trace),
      optTraces df tta opts = Except.ok ts → ts.map traceName = opts.flatMap sn := by
  intro opts
  induction opts with
  | nil =>
    intro ts h
    injection h with h'
    subst h'
    rfl
  | cons o os ih =>
    intro ts h
    simp only [optTraces, bind, Except.bind] at h
    cases ho : tta o with
    | none => rw [ho] at h; cases h
    | some ps =>
      rw [ho] at h
      dsimp only at h
      cases h1 : seriesTraces df ps with
      | error e => rw [h1] at h; cases h
      | ok ts1 =>
        rw [h1] at h
        cases h2 : optTraces df tta os with
        | error e => rw [h2] at h; cases h
        | ok more =>
          rw [h2] at h
          injection h with h'
          subst h'
          simp [List.map_append, seriesTraces_names df ps ts1 h1, hsn o ps ho, ih more h2]

theorem distFigCore_names (dff : DF) (tta : String → Option (List (String × String)))
    (sn : String → List String)
    (hsn : ∀ o ps, tta o = Option.some ps → ps.map Prod.snd = sn o)
    (opts : List String) (title : String) (f : Fig)
    (h : distFigCore dff tta opts title = Except.ok f) :
    f.traces.map traceName =
      "TS Überstand [%]" :: "TS Sediment [%]" :: opts.flatMap sn := by
  simp only [distFigCore, bind, Except.bind] at h
  cases h1 : getColE dff "Enzym" with
  | error e => rw [h1] at h; cases h
  | ok ex =>
    rw [h1] at h
    cases h2 : getColE dff "TS Anteil ÜS [%]" with
    | error e => rw [h2] at h; cases h
    | ok yU =>
      rw [h2] at h
      cases h3 : getColE dff "TS Anteil Sedi [%]" with
      | error e => rw [h3] at h; cases h
      | ok yS =>
        rw [h3] at h
        cases h4 : optTraces dff tta opts with
        | error e => rw [h4] at h; cases h
        | ok extra =>
          rw [h4] at h
          injection h with h'
          subst h'
          simp [traceName, optTraces_names dff tta sn hsn opts extra h4]

/-- C3 counterexample: two carb renders over the same table and filters
whose enabled-option sets are equal as sets but listed in different
orders produce different series lists — the loop follows the selection
order, not a fixed canonical order. -/
theorem C3_option_order_counterexample :
    (["loes", "glc"] : List String).Perm ["glc", "loes"] ∧
    (update_plot stEx "carb" [] [] ["loes", "glc"] [] "distribution" []).1.map
        (fun f => f.traces.map traceName) =
      Except.ok ["TS Überstand [%]", "TS Sediment [%]",
                 "Proteinlöslichkeit [%]", "Reduzierende Zucker [µM]"] ∧
    (update_plot stEx "carb" [] [] ["glc", "loes"] [] "distribution" []).1.map
        (fun f => f.traces.map traceName) =
      Except.ok ["TS Überstand [%]", "TS Sediment [%]",
                 "Reduzierende Zucker [µM]", "Proteinlöslichkeit [%]"] ∧
    (update_plot stEx "carb" [] [] ["loes", "glc"] [] "distribution" []).1 ≠
      (update_plot stEx "carb" [] [] ["glc", "loes"] [] "distribution" []).1 :=
  ⟨by decide, by decide, by decide, by decide⟩

/-- C3 (amended): in both distribution views the series list is the two
stacked bars followed by one series per enabled option in the order the
options appear in the selection list ("ph" expanding to two series) —
so renders with identical option lists agree, but the order tracks the
selection list, not a fixed canonical option order. -/
theorem C3_series_follow_selection_order :
    (∀ (st : St) (mats enz opts po : List String) (pv : String) (mm : List String) (f : Fig),
      (filteredDF st "carb" mats enz).rows ≠ [] →
      (update_plot st "carb" mats enz opts po pv mm).1 = Except.ok f →
      f.traces.map traceName =
        "TS Überstand [%]" :: "TS Sediment [%]" :: opts.flatMap carbOptNames) ∧
    (∀ (st : St) (mats enz co opts mm : List String) (f : Fig),
      (filteredDF st "prot" mats enz).rows ≠ [] →
      (update_plot st "prot" mats enz co opts "distribution" mm).1 = Except.ok f →
      f.traces.map traceName =
        "TS Überstand [%]" :: "TS Sediment [%]" :: opts.flatMap protOptNames) := by
  constructor
  · intro st mats enz opts po pv mm f hne hok
    rw [update_plot_carb_eq st mats enz opts po pv mm hne] at hok
    cases habs : absDeltaVals (filteredDF st "carb" mats enz) with
    | error e => rw [habs] at hok; cases hok
    | ok vals =>
      rw [habs] at hok
      dsimp only at hok
      exact distFigCore_names _ _ _ carbTracesToAdd_names opts _ f hok
  · intro st mats enz co opts mm f hne hok
    rw [update_plot_protdist_eq st mats enz co opts mm hne] at hok
    cases habs : absDeltaVals (filteredDF st "prot" mats enz) with
    | error e => rw [habs] at hok; cases hok
    | ok vals =>
      rw [habs] at hok
      dsimp only at hok
      exact distFigCore_names _ _ _ protTracesToAdd_names opts _ f hok

/-- Figure the example carb render produces for the selection list
["glc", "loes"]. -/
def figC3ex : Fig :=
  { title := "Carbohydratasen — TS-Verteilung & Zusatzdaten",
    traces := [Trace.bar [Cell.str "E1"] [Cell.num 60] "TS Überstand [%]",
               Trace.bar [Cell.str "E1"] [Cell.num 40] "TS Sediment [%]",
               Trace.scatter [Cell.str "E1"] [Cell.num 5] "Reduzierende Zucker [µM]" true,
               Trace.scatter [Cell.str "E1"] [Cell.num 30] "Proteinlöslichkeit [%]" true],
    annots := [], colorRange := Option.none }

/-- C3 witness: the amended ordering statement instantiated on the
example table with the selection list ["glc", "loes"]. -/
theorem C3_series_follow_selection_order_witness :
    figC3ex.traces.map traceName =
      "TS Überstand [%]" :: "TS Sediment [%]" :: (["glc", "loes"].flatMap carbOptNames) :=
  C3_series_follow_selection_order.1 stEx [] [] ["glc", "loes"] [] "distribution" [] figC3ex
    (by decide) (by decide)

theorem findIdx_none_of_contains_false (cols : List String) (c : String)
    (h : cols.contains c = false) :
    cols.findIdx? (fun x => x = c) = Option.none := by
  induction cols with
  | nil => rfl
  | cons a t ih =>
    simp only [List.contains_cons, Bool.or_eq_false_iff] at h
    simp only [List.findIdx?_cons]
    have ha : (decide (a = c)) = false := by
      by_cases hac : a = c
      · subst hac
        have := h.1
        simp at this
      · simp [hac]
    rw [ha]
    simp [ih h.2]

theorem getColE_error_of_not_hasCol (df : DF) (c : String) (h : hasCol df c = false) :
    getColE df c = Except.error ("KeyError: " ++ c) := by
  unfold getColE
  rw [findIdx_none_of_contains_false df.cols c h]

theorem hasCol_setCol_false (df : DF) (c c' : String) (vals : List Cell)
    (h : hasCol df c' = false) (hne : c' ≠ c) :
    hasCol (setCol df c vals) c' = false := by
  unfold setCol
  cases hf : df.cols.findIdx? (fun x => x = c) with
  | some i => simpa [hasCol] using h
  | none =>
    unfold hasCol at h ⊢
    simp only []
    simp [h, hne, Ne.symm hne]
    simpa using h

theorem seriesTraces_error_mem (df : DF) (cf nm : String)
    (hcol : getColE df cf = Except.error ("KeyError: " ++ cf)) :
    ∀ ps : List (String × String), (cf, nm) ∈ ps →
      ∃ e, seriesTraces df ps = Except.error e := by
  intro ps
  induction ps with
  | nil => intro hmem; cases hmem
  | cons p pt ih =>
    intro hmem
    simp only [seriesTraces, bind, Except.bind]
    cases h1 : getColE df "Enzym" with
    | error e => exact ⟨e, rfl⟩
    | ok ex =>
      by_cases hp : p.1 = cf
    
      · rw [hp, hcol]
        exact ⟨"KeyError: " ++ cf, rfl⟩
      · cases h2 : getColE df p.1 with
        | error e => exact ⟨e, rfl⟩
        | ok ys =>
          have hmem' : (cf, nm) ∈ pt := by
            cases hmem with
            | head => exact absurd rfl hp
            | tail _ hm => exact hm
          obtain ⟨e, he⟩ := ih hmem'
          rw [he]
          exact ⟨e, rfl⟩

theorem optTraces_error_mem (df : DF) (tta : String → Option (List (String × String)))
    (o cf nm : String) (ps : List (String × String))
    (ho : tta o = Option.some ps) (hpair : (cf, nm) ∈ ps)
    (hcol : getColE df cf = Except.error ("KeyError: " ++ cf)) :
    ∀ opts : List String, o ∈ opts → ∃ e, optTraces df tta opts = Except.error e := by
  intro opts
  induction opts with
  | nil => intro hmem; cases hmem
  | cons o' os ih =>
    intro hmem
    simp only [optTraces, bind, Except.bind]
    by_cases ho' : o' = o
    · subst ho'
      rw [ho]
      dsimp only
      obtain ⟨e, he⟩ := seriesTraces_error_mem df cf nm hcol ps hpair
      rw [he]
      exact ⟨e, rfl⟩
    · cases ht : tta o' with
      | none => exact ⟨"KeyError: " ++ o', rfl⟩
      | some ps' =>
        dsimp only
        cases h1 : seriesTraces df ps' with
        | error e => exact ⟨e, rfl⟩
        | ok ts1 =>
          dsimp only
          have hmem' : o ∈ os := by
            cases hmem with
            | head => exact absurd rfl ho'
            | tail _ hm => exact hm
          obtain ⟨e, he⟩ := ih hmem'
          rw [he]
          exact ⟨e, rfl⟩

theorem distFigCore_error (dff : DF) (tta : String → Option (List (String × String)))
    (o cf nm : String) (ps : List (String × String)) (opts : List String) (title : String)
    (ho : tta o = Option.some ps) (hpair : (cf, nm) ∈ ps)
    (hcol : getColE dff cf = Except.error ("KeyError: " ++ cf))
    (hmem : o ∈ opts) :
    ∃ e, distFigCore dff tta opts title = Except.error e := by
  simp only [distFigCore, bind, Except.bind]
  cases h1 : getColE dff "Enzym" with
  | error e => exact ⟨e, rfl⟩
  | ok ex =>
    cases h2 : getColE dff "TS Anteil ÜS [%]" with
    | error e => exact ⟨e, rfl⟩
    | ok yU =>
      cases h3 : getColE dff "TS Anteil Sedi [%]" with
      | error e => exact ⟨e, rfl⟩
      | ok yS =>
        obtain ⟨e, he⟩ := optTraces_error_mem dff tta o cf nm ps ho hpair hcol opts hmem
        rw [he]
        exact ⟨e, rfl⟩

/-- Example carb table with the "Löslichkeit [%]" column absent. -/
def dfCarbNoLoes : DF :=
  { cols := ["Material", "Enzym", "TS Anteil ÜS [%]", "TS Anteil Sedi [%]",
             "cglc [μM]", "pH (vor)", "pH (nach)"],
    rows := [[Cell.str "A", Cell.str "E1", Cell.num 60, Cell.num 40,
              Cell.num 5, Cell.num 7, Cell.num 6]] }

/-- Module state whose carb table lacks the solubility column. -/
def stNoLoes : St := ⟨dfCarbNoLoes, dfProtEx, dfFilmeEx⟩

/-- C4 counterexample: with the "Löslichkeit [%]" column absent and the
"loes" option enabled, the carb render raises KeyError instead of
skipping the option and returning a chart. -/
theorem C4_missing_column_counterexample :
    (update_plot stNoLoes "carb" [] [] ["loes"] [] "distribution" []).1 =
      Except.error "KeyError: Löslichkeit [%]" := by decide

/-- C4 (amended): in the distribution views a column required by an
enabled option is not skipped — its lookup raises, so the render returns
an error (shown for the solubility option); silent skipping of absent
columns happens only for the heatmap view's selected MM fractions, whose
absent entries are filtered out up front. -/
theorem C4_missing_column_raises :
    (∀ (st : St) (mats enz opts po : List String) (pv : String) (mm : List String),
      (filteredDF st "carb" mats enz).rows ≠ [] →
      "loes" ∈ opts →
      hasCol (filteredDF st "carb" mats enz) "Löslichkeit [%]" = false →
      ∃ e, (update_plot st "carb" mats enz opts po pv mm).1 = Except.error e) ∧
    (∀ (dff : DF) (mats mm : List String),
      heatmapBranch dff mats mm =
        heatmapBranch dff mats (mm.filter fun m => hasCol dff m)) := by
  constructor
  · intro st mats enz opts po pv mm hne hmem hcol
    rw [update_plot_carb_eq st mats enz opts po pv mm hne]
    cases habs : absDeltaVals (filteredDF st "carb" mats enz) with
    | error e => exact ⟨e, rfl⟩
    | ok vals =>
      dsimp only
      have hcol' : hasCol (setCol (filteredDF st "carb" mats enz) "abs(ΔpH)" vals)
          "Löslichkeit [%]" = false :=
        hasCol_setCol_false _ _ _ _ hcol (by decide)
      obtain ⟨e, he⟩ := distFigCore_error _ carbTracesToAdd "loes" "Löslichkeit [%]"
        "Proteinlöslichkeit [%]" [("Löslichkeit [%]", "Proteinlöslichkeit [%]")] opts
        "Carbohydratasen — TS-Verteilung & Zusatzdaten" (by decide)
        (List.mem_singleton.mpr rfl) (getColE_error_of_not_hasCol _ _ hcol') hmem
      exact ⟨e, he⟩
  · intro dff mats mm
    have hff : (mm.filter fun m => hasCol dff m).filter (fun m => hasCol dff m) =
        mm.filter fun m => hasCol dff m := by
      rw [List.filter_filter]
      simp
    simp only [heatmapBranch, hff]

/-- C4 witness for the amended statement: the no-solubility table with
the "loes" option enabled yields an error. -/
theorem C4_missing_column_raises_witness :
    ∃ e, (update_plot stNoLoes "carb" [] [] ["loes"] [] "distribution" []).1 =
      Except.error e :=
  C4_missing_column_raises.1 stNoLoes [] [] ["loes"] [] "distribution" []
    (by decide) (by decide) (by decide)

/-- Spec-side reading of one heatmap cell's data: the numeric
"Anteil [%]"-column values (column fr) of the rows whose Material is m
and whose Enzym cell is e — the (material, enzyme, fraction) group the
pivot aggregates. -/
def anteilVals (df : DF) (m : String) (e : Cell) (fr : String) : List Q :=
  match df.cols.findIdx? (fun x => x = "Material"), df.cols.findIdx? (fun x => x = "Enzym"),
        df.cols.findIdx? (fun x => x = fr) with
  | Option.some iM, Option.some iE, Option.some iF =>
    (df.rows.filter fun r =>
        match cellAt iM r with
        | Cell.str s => s = m
        | _ => false).filterMap fun r =>
      if cellAt iE r = e then cellNum? (cellAt iF r) else Option.none
  | _, _, _ => []

/-- Well-formed fraction: positive denominator (every number the code
builds has one). -/
def qWFp (q : Q) : Prop := 0 < q.d

instance (q : Q) : Decidable (qWFp q) := by unfold qWFp; infer_instance

/-- Well-formed cell: a numeric cell carries a well-formed fraction. -/
def cellWF (c : Cell) : Prop := ∀ q, c = Cell.num q → 0 < q.d

instance (c : Cell) : Decidable (cellWF c) := by
  unfold cellWF
  cases c with
  | na => exact Decidable.isTrue (by intro q h; cases h)
  | num q =>
    by_cases h : 0 < q.d
    · exact Decidable.isTrue (by intro p hp; cases hp; exact h)
    · exact Decidable.isFalse (by intro hall; exact h (hall q rfl))
  | str s => exact Decidable.isTrue (by intro q h; cases h)

/-- Well-formed table: every cell of every row is well-formed. -/
def dfWF (df : DF) : Prop := ∀ r ∈ df.rows, ∀ c ∈ r, cellWF c

instance (df : DF) : Decidable (dfWF df) := by unfold dfWF; infer_instance

theorem qle_refl (a : Q) : qle a a = true := by simp [qle]

theorem qle_total (a b : Q) : qle a b = true ∨ qle b a = true := by
  simp only [qle, decide_eq_true_eq]
  omega

theorem qle_trans (a b c : Q) (ha : qWFp a) (hb : qWFp b) (hc : qWFp c)
    (h1 : qle a b = true) (h2 : qle b c = true) : qle a c = true := by
  simp only [qle, decide_eq_true_eq] at h1 h2 ⊢
  unfold qWFp at ha hb hc
  have hbd : (0 : ℤ) < b.d := by exact_mod_cast hb
  have had : (0 : ℤ) < a.d := by exact_mod_cast ha
  have hcd : (0 : ℤ) < c.d := by exact_mod_cast hc
  have h1' := mul_le_mul_of_nonneg_right h1 (le_of_lt hcd)
  have h2' := mul_le_mul_of_nonneg_right h2 (le_of_lt had)
  have : a.n * (c.d : ℤ) * b.d ≤ c.n * (a.d : ℤ) * b.d := by nlinarith
  exact le_of_mul_le_mul_right this hbd

theorem qmin_mem (a b : Q) : qmin a b = a ∨ qmin a b = b := by
  unfold qmin
  split
  · exact Or.inl rfl
  · exact Or.inr rfl

theorem qmax_mem (a b : Q) : qmax a b = a ∨ qmax a b = b := by
  unfold qmax
  split
  · exact Or.inl rfl
  · exact Or.inr rfl

theorem qmin_le_left (a b : Q) : qle (qmin a b) a = true := by
  unfold qmin
  split
  · exact qle_refl a
  · rcases qle_total a b with h | h
    · simp_all
    · exact h

theorem qmin_le_right (a b : Q) : qle (qmin a b) b = true := by
  unfold qmin
  split
  · assumption
  · exact qle_refl b

theorem qmax_ge_left (a b : Q) : qle a (qmax a b) = true := by
  unfold qmax
  split
  · exact qle_refl a
  · rcases qle_total a b with h | h
    · exact h
    · simp_all

theorem qmax_ge_right (a b : Q) : qle b (qmax a b) = true := by
  unfold qmax
  split
  · assumption
  · exact qle_refl b

theorem foldl_qmin_mem (vs : List Q) : ∀ acc : Q, vs.foldl qmin acc ∈ acc :: vs := by
  induction vs with
  | nil => intro acc; exact List.mem_singleton.mpr rfl
  | cons x xs ih =>
    intro acc
    have h := ih (qmin acc x)
    rcases qmin_mem acc x with hm | hm <;>
      (simp only [List.foldl_cons]
       rcases List.mem_cons.mp h with h' | h'
       · rw [h', hm]
         simp
       · simp [h'])

theorem foldl_qmax_mem (vs : List Q) : ∀ acc : Q, vs.foldl qmax acc ∈ acc :: vs := by
  induction vs with
  | nil => intro acc; exact List.mem_singleton.mpr rfl
  | cons x xs ih =>
    intro acc
    have h := ih (qmax acc x)
    rcases qmax_mem acc x with hm | hm <;>
      (simp only [List.foldl_cons]
       rcases List.mem_cons.mp h with h' | h'
       · rw [h', hm]
         simp
       · simp [h'])

theorem foldl_qmin_le (vs : List Q) : ∀ acc : Q, qWFp acc → (∀ x ∈ vs, qWFp x) →
    qle (vs.foldl qmin acc) acc = true ∧ ∀ x ∈ vs, qle (vs.foldl qmin acc) x = true := by
  induction vs with
  | nil => intro acc hacc _; exact ⟨qle_refl acc, by intro x hx; cases hx⟩
  | cons y ys ih =>
    intro acc hacc hwf
    have hy : qWFp y := hwf y (List.mem_cons_self y ys)
    have hys : ∀ x ∈ ys, qWFp x := fun x hx => hwf x (List.mem_cons_of_mem y hx)
    have hqm : qWFp (qmin acc y) := by
      rcases qmin_mem acc y with h | h <;> rw [h] <;> assumption
    have hih := ih (qmin acc y) hqm hys
    have hmemf : (ys.foldl qmin (qmin acc y)) ∈ (qmin acc y) :: ys := foldl_qmin_mem ys _
    have hwff : qWFp (ys.foldl qmin (qmin acc y)) := by
      rcases List.mem_cons.mp hmemf with h | h
      · rw [h]; exact hqm
      · exact hys _ h
    constructor
    · exact qle_trans _ _ _ hwff hqm hacc hih.1 (qmin_le_left acc y)
    · intro x hx
      rcases List.mem_cons.mp hx with h | h
      · subst h
        exact qle_trans _ _ _ hwff hqm hy hih.1 (qmin_le_right acc x)
      · exact hih.2 x h

theorem foldl_qmax_ge (vs : List Q) : ∀ acc : Q, qWFp acc → (∀ x ∈ vs, qWFp x) →
    qle acc (vs.foldl qmax acc) = true ∧ ∀ x ∈ vs, qle x (vs.foldl qmax acc) = true := by
  induction vs with
  | nil => intro acc hacc _; exact ⟨qle_refl acc, by intro x hx; cases hx⟩
  | cons y ys ih =>
    intro acc hacc hwf
    have hy : qWFp y := hwf y (List.mem_cons_self y ys)
    have hys : ∀ x ∈ ys, qWFp x := fun x hx => hwf x (List.mem_cons_of_mem y hx)
    have hqm : qWFp (qmax acc y) := by
      rcases qmax_mem acc y with h | h <;> rw [h] <;> assumption
    have hih := ih (qmax acc y) hqm hys
    have hmemf : (ys.foldl qmax (qmax acc y)) ∈ (qmax acc y) :: ys := foldl_qmax_mem ys _
    have hwff : qWFp (ys.foldl qmax (qmax acc y)) := by
      rcases List.mem_cons.mp hmemf with h | h
      · rw [h]; exact hqm
      · exact hys _ h
    constructor
    · exact qle_trans _ _ _ hacc hqm hwff (qmax_ge_left acc y) hih.1
    · intro x hx
      rcases List.mem_cons.mp hx with h | h
      · subst h
        exact qle_trans _ _ _ hy hqm hwff (qmax_ge_right acc x) hih.1
      · exact hih.2 x h

theorem listMinQ_spec (l : List Q) (hne : l ≠ []) (hwf : ∀ x ∈ l, qWFp x) :
    listMinQ l ∈ l ∧ ∀ x ∈ l, qle (listMinQ l) x = true := by
  cases l with
  | nil => exact absurd rfl hne
  | cons v vs =>
    have hv : qWFp v := hwf v (List.mem_cons_self v vs)
    have hvs : ∀ x ∈ vs, qWFp x := fun x hx => hwf x (List.mem_cons_of_mem v hx)
    have h := foldl_qmin_le vs v hv hvs
    refine ⟨?_, ?_⟩
    · simpa [listMinQ] using foldl_qmin_mem vs v
    · intro x hx
      rcases List.mem_cons.mp hx with h' | h'
      · subst h'; exact h.1
      · exact h.2 x h'

theorem listMaxQ_spec (l : List Q) (hne : l ≠ []) (hwf : ∀ x ∈ l, qWFp x) :
    listMaxQ l ∈ l ∧ ∀ x ∈ l, qle x (listMaxQ l) = true := by
  cases l with
  | nil => exact absurd rfl hne
  | cons v vs =>
    have hv : qWFp v := hwf v (List.mem_cons_self v vs)
    have hvs : ∀ x ∈ vs, qWFp x := fun x hx => hwf x (List.mem_cons_of_mem v hx)
    have h := foldl_qmax_ge vs v hv hvs
    refine ⟨?_, ?_⟩
    · simpa [listMaxQ] using foldl_qmax_mem vs v
    · intro x hx
      rcases List.mem_cons.mp hx with h' | h'
      · subst h'; exact h.1
      · exact h.2 x h'

theorem pool_min_spec (v1 v2 : List Q) (h1 : v1 ≠ []) (h2 : v2 ≠ [])
    (hwf : ∀ x ∈ v1 ++ v2, qWFp x) :
    qmin (listMinQ v1) (listMinQ v2) ∈ v1 ++ v2 ∧
    ∀ x ∈ v1 ++ v2, qle (qmin (listMinQ v1) (listMinQ v2)) x = true := by
  have hwf1 : ∀ x ∈ v1, qWFp x := fun x hx => hwf x (List.mem_append_left v2 hx)
  have hwf2 : ∀ x ∈ v2, qWFp x := fun x hx => hwf x (List.mem_append_right v1 hx)
  obtain ⟨hm1, hle1⟩ := listMinQ_spec v1 h1 hwf1
  obtain ⟨hm2, hle2⟩ := listMinQ_spec v2 h2 hwf2
  have hwm1 : qWFp (listMinQ v1) := hwf1 _ hm1
  have hwm2 : qWFp (listMinQ v2) := hwf2 _ hm2
  have hmin : qmin (listMinQ v1) (listMinQ v2) ∈ v1 ++ v2 := by
    rcases qmin_mem (listMinQ v1) (listMinQ v2) with h | h <;> rw [h]
    · exact List.mem_append_left v2 hm1
    · exact List.mem_append_right v1 hm2
  have hwmin : qWFp (qmin (listMinQ v1) (listMinQ v2)) := by
    rcases qmin_mem (listMinQ v1) (listMinQ v2) with h | h <;> rw [h] <;> assumption
  refine ⟨hmin, ?_⟩
  intro x hx
  rcases List.mem_append.mp hx with h | h
  · exact qle_trans _ _ _ hwmin hwm1 (hwf1 x h) (qmin_le_left _ _) (hle1 x h)
  · exact qle_trans _ _ _ hwmin hwm2 (hwf2 x h) (qmin_le_right _ _) (hle2 x h)

theorem pool_max_spec (v1 v2 : List Q) (h1 : v1 ≠ []) (h2 : v2 ≠ [])
    (hwf : ∀ x ∈ v1 ++ v2, qWFp x) :
    qmax (listMaxQ v1) (listMaxQ v2) ∈ v1 ++ v2 ∧
    ∀ x ∈ v1 ++ v2, qle x (qmax (listMaxQ v1) (listMaxQ v2)) = true := by
  have hwf1 : ∀ x ∈ v1, qWFp x := fun x hx => hwf x (List.mem_append_left v2 hx)
  have hwf2 : ∀ x ∈ v2, qWFp x := fun x hx => hwf x (List.mem_append_right v1 hx)
  obtain ⟨hm1, hle1⟩ := listMaxQ_spec v1 h1 hwf1
  obtain ⟨hm2, hle2⟩ := listMaxQ_spec v2 h2 hwf2
  have hwm1 : qWFp (listMaxQ v1) := hwf1 _ hm1
  have hwm2 : qWFp (listMaxQ v2) := hwf2 _ hm2
  have hmax : qmax (listMaxQ v1) (listMaxQ v2) ∈ v1 ++ v2 := by
    rcases qmax_mem (listMaxQ v1) (listMaxQ v2) with h | h <;> rw [h]
    · exact List.mem_append_left v2 hm1
    · exact List.mem_append_right v1 hm2
  have hwmax : qWFp (qmax (listMaxQ v1) (listMaxQ v2)) := by
    rcases qmax_mem (listMaxQ v1) (listMaxQ v2) with h | h <;> rw [h] <;> assumption
  refine ⟨hmax, ?_⟩
  intro x hx
  rcases List.mem_append.mp hx with h | h
  · exact qle_trans _ _ _ (hwf1 x h) hwm1 hwmax (hle1 x h) (qmax_ge_left _ _)
  · exact qle_trans _ _ _ (hwf2 x h) hwm2 hwmax (hle2 x h) (qmax_ge_right _ _)

theorem colPairs_spec (df : DF) :
    ∀ (mm : List String) (pairs : List (String × ℕ)),
      colPairs df mm = Except.ok pairs →
      pairs.map Prod.fst = mm ∧
      ∀ pr ∈ pairs, df.cols.findIdx? (fun x => x = pr.1) = Option.some pr.2 := by
  intro mm
  induction mm with
  | nil =>
    intro pairs h
    injection h with h'
    subst h'
    exact ⟨rfl, by intro pr hpr; cases hpr⟩
  | cons f fs ih =>
    intro pairs h
    simp only [colPairs, bind, Except.bind] at h
    cases hf : df.cols.findIdx? (fun x => x = f) with
    | none => rw [hf] at h; cases h
    | some i =>
      rw [hf] at h
      dsimp only at h
      cases hrest : colPairs df fs with
      | error e => rw [hrest] at h; cases h
      | ok rest =>
        rw [hrest] at h
        dsimp only at h
        injection h with h'
        subst h'
        obtain ⟨hmap, hall⟩ := ih rest hrest
        refine ⟨by simp [hmap], ?_⟩
        intro pr hpr
        rcases List.mem_cons.mp hpr with h' | h'
        · subst h'; exact hf
        · exact hall pr h'

theorem mem_insertLe {α : Type} (le : α → α → Bool) (a b : α) :
    ∀ l : List α, b ∈ insertLe le a l ↔ b = a ∨ b ∈ l := by
  intro l
  induction l with
  | nil => simp [insertLe]
  | cons c t ih =>
    unfold insertLe
    split
    · simp [List.mem_cons]
    · simp only [List.mem_cons, ih]
      tauto

theorem mem_sortLe {α : Type} (le : α → α → Bool) (b : α) :
    ∀ l : List α, b ∈ sortLe le l ↔ b ∈ l := by
  intro l
  induction l with
  | nil => simp [sortLe]
  | cons c t ih =>
    unfold sortLe at ih ⊢
    simp only [List.foldr_cons, mem_insertLe, List.mem_cons, ih]

theorem recVals_blocks_nil (rows : List (List Cell)) (iE : ℕ) (f : String) (e : Cell) :
    ∀ pt : List (String × ℕ), (∀ p ∈ pt, ¬(p.1 = f)) →
      List.filterMap
        (fun x : Cell × String × Cell =>
          if x.1 = e && x.2.1 = f then cellNum? x.2.2 else Option.none)
        (pt.flatMap fun p => rows.map fun r => (cellAt iE r, p.1, cellAt p.2 r)) = [] := by
  intro pt
  induction pt with
  | nil => intro _; rfl
  | cons p pt ih =>
    intro hall
    have hp : ¬(p.1 = f) := hall p (List.mem_cons_self p pt)
    rw [List.flatMap_cons, List.filterMap_append, List.filterMap_map]
    rw [ih fun q hq => hall q (List.mem_cons_of_mem p hq)]
    rw [List.append_nil]
    apply List.filterMap_eq_nil.mpr
    intro r _
    simp [Function.comp, hp]

theorem recVals_blocks (rows : List (List Cell)) (iE : ℕ) (f : String) (e : Cell) :
    ∀ (pairs : List (String × ℕ)) (iF : ℕ),
      (pairs.map Prod.fst).Nodup → (f, iF) ∈ pairs →
      recVals (pairs.flatMap fun p => rows.map fun r => (cellAt iE r, p.1, cellAt p.2 r)) f e =
        rows.filterMap fun r =>
          if cellAt iE r = e then cellNum? (cellAt iF r) else Option.none := by
  intro pairs
  induction pairs with
  | nil => intro iF _ hmem; cases hmem
  | cons pr pt ih =>
    intro iF hnd hmem
    unfold recVals
    rw [List.flatMap_cons, List.filterMap_append, List.filterMap_map]
    rcases List.mem_cons.mp hmem with hh | ht
    · have hpr1 : pr.1 = f := by rw [← hh]
      have hpr2 : pr.2 = iF := by rw [← hh]
      have hnotin : ∀ p ∈ pt, ¬(p.1 = f) := by
        intro p hp hpf
        have hnd1 := (List.nodup_cons.mp hnd).1
        exact hnd1 (by
          rw [hpr1, ← hpf]
          exact List.mem_map_of_mem Prod.fst hp)
      rw [recVals_blocks_nil rows iE f e pt hnotin, List.append_nil]
      subst hpr1
      subst hpr2
      apply List.filterMap_congr
      intro r _
      simp [Function.comp]
    · have hf_in_pt : f ∈ pt.map Prod.fst := by
        have : (f, iF).1 ∈ pt.map Prod.fst := List.mem_map_of_mem Prod.fst ht
        simpa using this
      have hpr1 : ¬(pr.1 = f) := by
        intro hpf
        have hnd1 := (List.nodup_cons.mp hnd).1
        rw [hpf] at hnd1
        exact hnd1 hf_in_pt
      have hblock : List.filterMap
          ((fun x : Cell × String × Cell =>
            if x.1 = e && x.2.1 = f then cellNum? x.2.2 else Option.none) ∘
            fun r => (cellAt iE r, pr.1, cellAt pr.2 r)) rows = [] := by
        apply List.filterMap_eq_nil.mpr
        intro r _
        simp [Function.comp, hpr1]
      rw [hblock]
      rw [List.nil_append]
      exact ih iF (List.nodup_cons.mp hnd).2 ht

theorem mkPivot_destruct (df : DF) (mm : List String) (p : Pivot)
    (h : mkPivot df mm = Except.ok p) :
    ∃ (iE : ℕ) (pairs : List (String × ℕ))
      (recs : List (Cell × String × Cell)),
      df.cols.findIdx? (fun x => x = "Enzym") = Option.some iE ∧
      colPairs df mm = Except.ok pairs ∧
      recs = (pairs.flatMap fun pr => df.rows.map fun r => (cellAt iE r, pr.1, cellAt pr.2 r)) ∧
      p.fracs = (sortLe strLe (recs.map fun r => r.2.1).dedup).filter
        (fun f => (sortLe cellLe (((recs.map fun r => r.1).dedup).filter
          fun e => !(e = Cell.na))).any fun e => !(pivotCell recs f e = Cell.na)) ∧
      p.enzs = (sortLe cellLe (((recs.map fun r => r.1).dedup).filter
        fun e => !(e = Cell.na))).filter
        (fun e => (sortLe strLe (recs.map fun r => r.2.1).dedup).any
          fun f => !(pivotCell recs f e = Cell.na)) ∧
      p.z = p.fracs.map fun f => p.enzs.map fun e => pivotCell recs f e := by
  simp only [mkPivot, meltRecords, bind, Except.bind] at h
  cases hE : df.cols.findIdx? (fun x => x = "Enzym") with
  | none => rw [hE] at h; cases h
  | some iE =>
    rw [hE] at h
    dsimp only at h
    cases hcp : colPairs df mm with
    | error e => rw [hcp] at h; cases h
    | ok pairs =>
      rw [hcp] at h
      dsimp only at h
      refine ⟨iE, pairs, _, rfl, rfl, rfl, ?_⟩
      injection h with h'
      subst h'
      exact ⟨rfl, rfl, rfl⟩

theorem filterEqE_destruct (df : DF) (c v : String) (d : DF)
    (h : filterEqE df c v = Except.ok d) :
    ∃ i, df.cols.findIdx? (fun x => x = c) = Option.some i ∧
      d.cols = df.cols ∧
      d.rows = (df.rows.filter fun r =>
        match cellAt i r with
        | Cell.str s => s = v
        | _ => false) := by
  unfold filterEqE at h
  cases hf : df.cols.findIdx? (fun x => x = c) with
  | none => rw [hf] at h; cases h
  | some i =>
    rw [hf] at h
    injection h with h'
    subst h'
    exact ⟨i, rfl, rfl, rfl⟩

theorem frac_has_pair (df : DF) (iE : ℕ) (pairs : List (String × ℕ)) (f : String)
    (hmem : f ∈ ((pairs.flatMap fun pr =>
      df.rows.map fun r => (cellAt iE r, pr.1, cellAt pr.2 r)).map fun r => r.2.1)) :
    ∃ iF, (f, iF) ∈ pairs := by
  rcases List.mem_map.mp hmem with ⟨rec, hrec, hfr⟩
  rcases List.mem_flatMap.mp hrec with ⟨pr, hpr, hblock⟩
  rcases List.mem_map.mp hblock with ⟨r, _, hr⟩
  refine ⟨pr.2, ?_⟩
  have : rec.2.1 = pr.1 := by rw [← hr]
  have hf : pr.1 = f := by rw [← this, hfr]
  have : (f, pr.2) = pr := by
    cases pr with
    | mk a b => simp at hf ⊢; exact hf.symm
  rw [this]
  exact hpr

theorem mkPivot_on_filtered (dffF : DF) (m : String) (dff1 : DF) (mmp : List String)
    (p : Pivot) (hnd : mmp.Nodup)
    (hflt : filterEqE dffF "Material" m = Except.ok dff1)
    (hp : mkPivot dff1 mmp = Except.ok p) :
    p.z = p.fracs.map fun fr => p.enzs.map fun e => meanQ (anteilVals dffF m e fr) := by
  obtain ⟨iM, hM, hcols, hrows⟩ := filterEqE_destruct dffF "Material" m dff1 hflt
  obtain ⟨iE, pairs, recs, hE, hcp, hrecs, hfracs, henzs, hz⟩ :=
    mkPivot_destruct dff1 mmp p hp
  obtain ⟨hmap, hfind⟩ := colPairs_spec dff1 mmp pairs hcp
  rw [hz]
  apply List.map_congr_left
  intro f hf
  apply List.map_congr_left
  intro e _
  have hf2 : f ∈ (recs.map fun r => r.2.1) := by
    rw [hfracs] at hf
    have hf3 := List.mem_filter.mp hf
    have hf4 := (mem_sortLe strLe f _).mp hf3.1
    exact List.mem_dedup.mp hf4
  rw [hrecs] at hf2
  obtain ⟨iF, hpair⟩ := frac_has_pair dff1 iE pairs f hf2
  have hndp : (pairs.map Prod.fst).Nodup := by rw [hmap]; exact hnd
  have hrv : recVals recs f e = dff1.rows.filterMap fun r =>
      if cellAt iE r = e then cellNum? (cellAt iF r) else Option.none := by
    rw [hrecs]
    exact recVals_blocks dff1.rows iE f e pairs iF hndp hpair
  have hiF : dff1.cols.findIdx? (fun x => x = f) = Option.some iF := hfind (f, iF) hpair
  unfold pivotCell
  rw [hrv]
  congr 1
  unfold anteilVals
  rw [← hcols, hE, hiF]
  have hME : dff1.cols.findIdx? (fun x => x = "Material") = Option.some iM := by
    rw [hcols]; exact hM
  rw [← hcols] at hM
  rw [hM]
  dsimp only
  rw [hrows]

theorem cellWF_cellAt (r : List Cell) (i : ℕ) (h : ∀ c ∈ r, cellWF c) :
    cellWF (cellAt i r) := by
  unfold cellAt
  rw [List.getD_eq_getElem?_getD]
  cases hg : r[i]? with
  | none => intro q hq; cases hq
  | some c => exact h c (List.getElem?_mem hg)

theorem foldl_qAdd_wf (vs : List Q) : ∀ acc : Q, qWFp acc → (∀ q ∈ vs, qWFp q) →
    qWFp (vs.foldl qAdd acc) := by
  induction vs with
  | nil => intro acc hacc _; exact hacc
  | cons v vt ih =>
    intro acc hacc hall
    have hv : qWFp v := hall v (List.mem_cons_self v vt)
    have : qWFp (qAdd acc v) := by
      unfold qWFp qAdd at *
      exact Nat.mul_pos hacc hv
    exact ih (qAdd acc v) this fun q hq => hall q (List.mem_cons_of_mem v hq)

theorem meanQ_wf (vs : List Q) (h : ∀ q ∈ vs, qWFp q) : cellWF (meanQ vs) := by
  cases vs with
  | nil => intro q hq; cases hq
  | cons v vt =>
    intro q hq
    injection hq with hq'
    subst hq'
    have hv : qWFp v := h v (List.mem_cons_self v vt)
    have hfold : qWFp (vt.foldl qAdd v) :=
      foldl_qAdd_wf vt v hv fun q hq => h q (List.mem_cons_of_mem v hq)
    unfold qDivNat qWFp at *
    exact Nat.mul_pos hfold (Nat.succ_pos _)

theorem recVals_wf (df : DF) (hdf : dfWF df) (iE : ℕ) (pairs : List (String × ℕ))
    (f : String) (e : Cell) :
    ∀ q ∈ recVals (pairs.flatMap fun pr =>
        df.rows.map fun r => (cellAt iE r, pr.1, cellAt pr.2 r)) f e, qWFp q := by
  intro q hq
  unfold recVals at hq
  rcases List.mem_filterMap.mp hq with ⟨rec, hrec, hsome⟩
  rcases List.mem_flatMap.mp hrec with ⟨pr, _, hblock⟩
  rcases List.mem_map.mp hblock with ⟨r, hr, hrec'⟩
  have hwc : cellWF (cellAt pr.2 r) := cellWF_cellAt r pr.2 (hdf r hr)
  by_cases hcond : (rec.1 = e && rec.2.1 = f) = true
  · rw [if_pos hcond] at hsome
    have h22 : rec.2.2 = cellAt pr.2 r := by rw [← hrec']
    rw [h22] at hsome
    cases hc : cellAt pr.2 r with
    | na => rw [hc] at hsome; cases hsome
    | num qv =>
      rw [hc] at hsome
      injection hsome with hs
      rw [← hs]
      exact hwc qv hc
    | str s => rw [hc] at hsome; cases hsome
  · rw [if_neg hcond] at hsome
    cases hsome

theorem matNums_wf (df : DF) (mm : List String) (p : Pivot)
    (hdf : dfWF df) (hp : mkPivot df mm = Except.ok p) :
    ∀ q ∈ matNums p.z, qWFp q := by
  obtain ⟨iE, pairs, recs, hE, hcp, hrecs, hfracs, henzs, hz⟩ := mkPivot_destruct df mm p hp
  intro q hq
  unfold matNums at hq
  rcases List.mem_flatten.mp hq with ⟨rowv, hrowv, hqin⟩
  rcases List.mem_map.mp hrowv with ⟨zr, hzr, hrv⟩
  rw [← hrv] at hqin
  rcases List.mem_filterMap.mp hqin with ⟨c, hc, hcq⟩
  rw [hz] at hzr
  rcases List.mem_map.mp hzr with ⟨f, _, hzf⟩
  rw [← hzf] at hc
  rcases List.mem_map.mp hc with ⟨e, _, hce⟩
  have hcell : c = pivotCell recs f e := hce.symm
  cases hcnum : c with
  | na => rw [hcnum] at hcq; cases hcq
  | str s => rw [hcnum] at hcq; cases hcq
  | num qq =>
    rw [hcnum] at hcq
    injection hcq with hq'
    subst hq'
    have : cellWF c := by
      rw [hcell]
      unfold pivotCell
      apply meanQ_wf
      rw [hrecs]
      exact recVals_wf df hdf iE pairs f e
    exact this qq hcnum

theorem matNums_ne_nil (df : DF) (mm : List String) (p : Pivot)
    (hp : mkPivot df mm = Except.ok p) (hne : pivotEmpty p = false) :
    matNums p.z ≠ [] := by
  obtain ⟨iE, pairs, recs, hE, hcp, hrecs, hfracs, henzs, hz⟩ := mkPivot_destruct df mm p hp
  unfold pivotEmpty at hne
  rw [Bool.or_eq_false_iff] at hne
  have hfne : p.fracs ≠ [] := by
    cases hfr : p.fracs with
    | nil => rw [hfr] at hne; simp at hne
    | cons a t => simp
  obtain ⟨f, hfmem0⟩ := List.exists_mem_of_ne_nil p.fracs hfne
  have hfmem := hfmem0
  rw [hfracs] at hfmem
  have hcond := (List.mem_filter.mp hfmem).2
  rcases List.any_eq_true.mp hcond with ⟨e, hemem, hcellne⟩
  have hfKeys : f ∈ sortLe strLe (recs.map fun r => r.2.1).dedup :=
    (List.mem_filter.mp hfmem).1
  have hcellne' : ¬ (pivotCell recs f e = Cell.na) := by simpa using hcellne
  have hemem2 : e ∈ p.enzs := by
    rw [henzs]
    apply List.mem_filter.mpr
    refine ⟨hemem, ?_⟩
    apply List.any_eq_true.mpr
    exact ⟨f, hfKeys, hcellne⟩
  have hcellnum : ∃ q, pivotCell recs f e = Cell.num q := by
    cases hrv : recVals recs f e with
    | nil =>
      exfalso
      apply hcellne'
      unfold pivotCell meanQ
      rw [hrv]
    | cons v vt =>
      refine ⟨qDivNat (vt.foldl qAdd v) (vt.length + 1), ?_⟩
      unfold pivotCell meanQ
      rw [hrv]
  obtain ⟨q, hq⟩ := hcellnum
  have hmem : q ∈ matNums p.z := by
    unfold matNums
    apply List.mem_flatten.mpr
    refine ⟨(p.enzs.map fun e2 => pivotCell recs f e2).filterMap cellNum?, ?_, ?_⟩
    · apply List.mem_map.mpr
      refine ⟨p.enzs.map fun e2 => pivotCell recs f e2, ?_, rfl⟩
      rw [hz]
      exact List.mem_map_of_mem _ hfmem0
    · apply List.mem_filterMap.mpr
      refine ⟨pivotCell recs f e, List.mem_map_of_mem _ hemem2, ?_⟩
      rw [hq]
      rfl
  exact List.ne_nil_of_mem hmem

theorem heatmapBranch_two_ok (dff : DF) (m1 m2 : String) (mm : List String)
    (hmm : (mm.filter fun m => hasCol dff m) ≠ [])
    (dff1 dff2 : DF) (p1 p2 : Pivot)
    (h1 : filterEqE dff "Material" m1 = Except.ok dff1)
    (hp1 : mkPivot dff1 (mm.filter fun m => hasCol dff m) = Except.ok p1)
    (h2 : filterEqE dff "Material" m2 = Except.ok dff2)
    (hp2 : mkPivot dff2 (mm.filter fun m => hasCol dff m) = Except.ok p2) :
    heatmapBranch dff [m1, m2] mm = Except.ok
      { title := "Proteasen — Сравнение MM-фракций",
        traces := [Trace.heat p1.z p1.enzs p1.fracs 1, Trace.heat p2.z p2.enzs p2.fracs 2],
        annots := ["Материал: " ++ m1, "Материал: " ++ m2],
        colorRange := Option.some
          (if !pivotEmpty p1 && !pivotEmpty p2
            then qmin (listMinQ (matNums p1.z)) (listMinQ (matNums p2.z)) else 0,
           if !pivotEmpty p1 && !pivotEmpty p2
            then qmax (listMaxQ (matNums p1.z)) (listMaxQ (matNums p2.z)) else 100) } := by
  have hmmE : (mm.filter fun m => hasCol dff m).isEmpty = false := by
    cases hc : mm.filter fun m => hasCol dff m with
    | nil => exact absurd hc hmm
    | cons a t => rfl
  simp only [heatmapBranch, bind, Except.bind]
  rw [if_neg (by norm_num : ¬ (([m1, m2] : List String).length > 2))]
  rw [if_pos (by norm_num : (([m1, m2] : List String).length = 2))]
  rw [hmmE]
  simp only [Bool.false_eq_true, if_false, List.getD_cons_zero, List.getD_cons_succ]
  rw [h1]
  dsimp only
  rw [hp1]
  dsimp only
  rw [h2]
  dsimp only
  rw [hp2]

/-- C10: in the two-material Proteasen heatmap the shared color-scale
range defaults to exactly [0, 100] whenever either per-material pivot is
empty, instead of using the data's min/max. -/
theorem C10_empty_pivot_default_range (st : St) (mats enz co po mm : List String)
    (m1 m2 : String) (dff1 dff2 : DF) (p1 p2 : Pivot)
    (hm : mats = [m1, m2])
    (hne : (filteredDF st "prot" mats enz).rows ≠ [])
    (hmm : (mm.filter fun m => hasCol (filteredDF st "prot" mats enz) m) ≠ [])
    (h1 : filterEqE (filteredDF st "prot" mats enz) "Material" m1 = Except.ok dff1)
    (hp1 : mkPivot dff1
      (mm.filter fun m => hasCol (filteredDF st "prot" mats enz) m) = Except.ok p1)
    (h2 : filterEqE (filteredDF st "prot" mats enz) "Material" m2 = Except.ok dff2)
    (hp2 : mkPivot dff2
      (mm.filter fun m => hasCol (filteredDF st "prot" mats enz) m) = Except.ok p2)
    (hempty : pivotEmpty p1 = true ∨ pivotEmpty p2 = true) :
    ∃ f, (update_plot st "prot" mats enz co po "heatmap" mm).1 = Except.ok f ∧
      f.traces.length = 2 ∧ f.colorRange = Option.some (0, 100) := by
  subst hm
  rw [update_plot_heatmap_eq st _ enz co po mm hne]
  rw [heatmapBranch_two_ok _ m1 m2 mm hmm dff1 dff2 p1 p2 h1 hp1 h2 hp2]
  have hcond : (!pivotEmpty p1 && !pivotEmpty p2) = false := by
    rcases hempty with h | h <;> simp [h]
  rw [hcond]
  simp only [Bool.false_eq_true, if_false]
  exact ⟨_, rfl, rfl, rfl⟩

/-- C9 (amended): a two-material Proteasen heatmap render over a
well-formed table yields exactly two vertically stacked heatmap traces,
one per material, each cell being the mean of the "Anteil [%]" values of
its (material, enzyme, fraction) group, and — when both per-material
pivots are nonempty — one shared color range spanning exactly the
minimum and maximum over the values of both pivots. -/
theorem C9_two_material_heatmap (st : St) (mats enz co po mm : List String)
    (m1 m2 : String) (dff1 dff2 : DF) (p1 p2 : Pivot)
    (hm : mats = [m1, m2])
    (hne : (filteredDF st "prot" mats enz).rows ≠ [])
    (hnd : mm.Nodup)
    (hwf : dfWF (filteredDF st "prot" mats enz))
    (hmm : (mm.filter fun m => hasCol (filteredDF st "prot" mats enz) m) ≠ [])
    (h1 : filterEqE (filteredDF st "prot" mats enz) "Material" m1 = Except.ok dff1)
    (hp1 : mkPivot dff1
      (mm.filter fun m => hasCol (filteredDF st "prot" mats enz) m) = Except.ok p1)
    (h2 : filterEqE (filteredDF st "prot" mats enz) "Material" m2 = Except.ok dff2)
    (hp2 : mkPivot dff2
      (mm.filter fun m => hasCol (filteredDF st "prot" mats enz) m) = Except.ok p2)
    (hne1 : pivotEmpty p1 = false) (hne2 : pivotEmpty p2 = false) :
    ∃ f, (update_plot st "prot" mats enz co po "heatmap" mm).1 = Except.ok f ∧
      f.traces = [Trace.heat p1.z p1.enzs p1.fracs 1, Trace.heat p2.z p2.enzs p2.fracs 2] ∧
      p1.z = (p1.fracs.map fun fr => p1.enzs.map fun e =>
        meanQ (anteilVals (filteredDF st "prot" mats enz) m1 e fr)) ∧
      p2.z = (p2.fracs.map fun fr => p2.enzs.map fun e =>
        meanQ (anteilVals (filteredDF st "prot" mats enz) m2 e fr)) ∧
      ∃ lo hi, f.colorRange = Option.some (lo, hi) ∧
        lo ∈ matNums p1.z ++ matNums p2.z ∧
        hi ∈ matNums p1.z ++ matNums p2.z ∧
        ∀ q ∈ matNums p1.z ++ matNums p2.z, qle lo q = true ∧ qle q hi = true := by
  subst hm
  have hndp : (mm.filter fun m =>
      hasCol (filteredDF st "prot" [m1, m2] enz) m).Nodup := List.Nodup.filter _ hnd
  have hwf1 : dfWF dff1 := by
    obtain ⟨iM, hM, hcols1, hrows1⟩ := filterEqE_destruct _ _ _ _ h1
    intro r hr
    rw [hrows1] at hr
    exact hwf r (List.mem_of_mem_filter hr)
  have hwf2 : dfWF dff2 := by
    obtain ⟨iM, hM, hcols2, hrows2⟩ := filterEqE_destruct _ _ _ _ h2
    intro r hr
    rw [hrows2] at hr
    exact hwf r (List.mem_of_mem_filter hr)
  have hv1wf : ∀ q ∈ matNums p1.z, qWFp q := matNums_wf dff1 _ p1 hwf1 hp1
  have hv2wf : ∀ q ∈ matNums p2.z, qWFp q := matNums_wf dff2 _ p2 hwf2 hp2
  have hv1ne : matNums p1.z ≠ [] := matNums_ne_nil dff1 _ p1 hp1 hne1
  have hv2ne : matNums p2.z ≠ [] := matNums_ne_nil dff2 _ p2 hp2 hne2
  have hpoolwf : ∀ x ∈ matNums p1.z ++ matNums p2.z, qWFp x := by
    intro x hx
    rcases List.mem_append.mp hx with h | h
    · exact hv1wf x h
    · exact hv2wf x h
  obtain ⟨hmin_mem, hmin_le⟩ := pool_min_spec _ _ hv1ne hv2ne hpoolwf
  obtain ⟨hmax_mem, hmax_ge⟩ := pool_max_spec _ _ hv1ne hv2ne hpoolwf
  rw [update_plot_heatmap_eq st _ enz co po mm hne]
  rw [heatmapBranch_two_ok _ m1 m2 mm hmm dff1 dff2 p1 p2 h1 hp1 h2 hp2]
  have hcond : (!pivotEmpty p1 && !pivotEmpty p2) = true := by simp [hne1, hne2]
  rw [hcond]
  simp only [if_true]
  refine ⟨_, rfl, rfl,
    mkPivot_on_filtered _ m1 dff1 _ p1 hndp h1 hp1,
    mkPivot_on_filtered _ m2 dff2 _ p2 hndp h2 hp2,
    _, _, rfl, hmin_mem, hmax_mem, fun q hq => ⟨hmin_le q hq, hmax_ge q hq⟩⟩

/-- Material-A slice of the example Proteasen table. -/
def dffC9A : DF := ⟨dfProtEx.cols, [dfProtEx.rows.getD 0 [], dfProtEx.rows.getD 1 []]⟩

/-- Material-B slice of the example Proteasen table. -/
def dffC9B : DF := ⟨dfProtEx.cols, [dfProtEx.rows.getD 2 []]⟩

/-- Pivot of the A slice over MM1/MM2: MM1 averages 40 and 50 to 90/2,
MM2 has one observation 60 (one missing value skipped). -/
def pivC9A : Pivot :=
  ⟨["MM1", "MM2"], [Cell.str "E1"], [[Cell.num ⟨90, 2⟩], [Cell.num ⟨60, 1⟩]]⟩

/-- Pivot of the B slice over MM1/MM2. -/
def pivC9B : Pivot :=
  ⟨["MM1", "MM2"], [Cell.str "E2"], [[Cell.num ⟨45, 1⟩], [Cell.num ⟨55, 1⟩]]⟩

/-- C9 witness: the amended two-material heatmap statement instantiated
on the example Proteasen table with materials A and B and both
MM-fraction columns. -/
theorem C9_two_material_heatmap_witness :
    ∃ f, (update_plot stEx "prot" ["A", "B"] [] [] [] "heatmap" ["MM1", "MM2"]).1 =
        Except.ok f ∧
      f.traces = [Trace.heat pivC9A.z pivC9A.enzs pivC9A.fracs 1,
                  Trace.heat pivC9B.z pivC9B.enzs pivC9B.fracs 2] ∧
      pivC9A.z = (pivC9A.fracs.map fun fr => pivC9A.enzs.map fun e =>
        meanQ (anteilVals (filteredDF stEx "prot" ["A", "B"] []) "A" e fr)) ∧
      pivC9B.z = (pivC9B.fracs.map fun fr => pivC9B.enzs.map fun e =>
        meanQ (anteilVals (filteredDF stEx "prot" ["A", "B"] []) "B" e fr)) ∧
      ∃ lo hi, f.colorRange = Option.some (lo, hi) ∧
        lo ∈ matNums pivC9A.z ++ matNums pivC9B.z ∧
        hi ∈ matNums pivC9A.z ++ matNums pivC9B.z ∧
        ∀ q ∈ matNums pivC9A.z ++ matNums pivC9B.z,
          qle lo q = true ∧ qle q hi = true :=
  C9_two_material_heatmap stEx ["A", "B"] [] [] [] ["MM1", "MM2"] "A" "B"
    dffC9A dffC9B pivC9A pivC9B rfl (by decide) (by decide) (by decide) (by decide)
    (by decide) (by decide) (by decide) (by decide) (by decide) (by decide)

/-- Empty Material-Bx slice of the example Proteasen table. -/
def dffC10B : DF := ⟨dfProtEx.cols, []⟩

/-- Pivot of the A slice over MM1 only. -/
def pivC10A : Pivot := ⟨["MM1"], [Cell.str "E1"], [[Cell.num ⟨90, 2⟩]]⟩

/-- Empty pivot of the empty Bx slice. -/
def pivC10B : Pivot := ⟨[], [], []⟩

/-- C10 witness: selecting material Bx, which has no rows, empties the
second pivot, and the shared color range defaults to [0, 100]. -/
theorem C10_empty_pivot_default_range_witness :
    ∃ f, (update_plot stEx "prot" ["A", "Bx"] [] [] [] "heatmap" ["MM1"]).1 =
        Except.ok f ∧
      f.traces.length = 2 ∧ f.colorRange = Option.some (0, 100) :=
  C10_empty_pivot_default_range stEx ["A", "Bx"] [] [] [] ["MM1"] "A" "Bx"
    dffC9A dffC10B pivC10A pivC10B rfl (by decide) (by decide) (by decide) (by decide)
    (by decide) (by decide) (Or.inr (by decide))

/-- Figure the example two-material heatmap render produces when the
second material has no rows. -/
def figC9ce : Fig :=
  { title := "Proteasen — Сравнение MM-фракций",
    traces := [Trace.heat [[Cell.num ⟨90, 2⟩]] [Cell.str "E1"] ["MM1"] 1,
               Trace.heat [] [] [] 2],
    annots := ["Материал: A", "Материал: Bx"],
    colorRange := Option.some (0, 100) }

/-- C9 counterexample: with two materials selected and an MM column
present, one empty per-material pivot makes the shared color range
(0, 100) even though the minimum and maximum over the values of both
pivots are 45 — the range is not the min/max across both pivots. -/
theorem C9_colorrange_counterexample :
    (update_plot stEx "prot" ["A", "Bx"] [] [] [] "heatmap" ["MM1"]).1 =
      Except.ok figC9ce ∧
    figC9ce.traces.length = 2 ∧
    (figC9ce.traces.map fun t =>
      match t with
      | Trace.heat z _ _ _ => matNums z
      | _ => []) = [[⟨90, 2⟩], []] ∧
    figC9ce.colorRange = Option.some (0, 100) ∧
    qeq 0 ⟨90, 2⟩ = false ∧ qeq 100 ⟨90, 2⟩ = false :=
  ⟨by decide, by decide, by decide, by decide, by decide, by decide⟩
